import Mathlib

/-!
Verification of the FMR/CPI data-reconciliation pipeline.

This file gives a shallow embedding, in Lean 4, of the core data-processing
functions of the repository (the schema normalizer, entity deduplicator,
corpus assembler, metro-code mapper, temporal aligner, lag correlator and
anomaly scorer from `prepareZipcodeData.py`, `dataProcessor.py`,
`transformData.py` and `analyze.py`), and proves or refutes the frozen
specification claims about them.

Modelling conventions:
* pandas DataFrames become Lean lists of typed rows or of (column, cell)
  association lists; machine floats become exact rationals (ℚ);
* Python exceptions become an `Except PyError` result; an exception that the
  source catches is modelled by the caught branch, an uncaught one by an
  `Except.error` value;
* quantities that the source compares only through `<`/`>=` against a
  standard deviation (a square root, irrational over ℚ) are compared through
  an exact square-encoded test, documented at the definition.
-/

namespace S2P

attribute [local semireducible] Rat.add Rat.mul Rat.sub Rat.inv

/-- Lexicographic order on character lists by code point, the ascending
order pandas uses on string keys.  (Lean's own `String.le` is defined by
well-founded recursion on byte positions and does not evaluate inside the
kernel, so the embedding carries its own structural definition.) -/
def charListLe : List Char → List Char → Bool
  | [], _ => true
  | _ :: _, [] => false
  | a :: as, b :: bs => if a = b then charListLe as bs else decide (a < b)

/-- Ascending string order (pandas sort key for string columns). -/
def strLe (a b : String) : Bool := charListLe a.data b.data

/-- Arithmetic mean of a list of rationals; pandas `.mean()`.
For the empty list this yields 0/0 = 0 in ℚ; every use below is guarded so
that the empty case matches the source (or is unreachable). -/
def qmean (xs : List ℚ) : ℚ := xs.sum / xs.length

/-- Sample variance with one delta degree of freedom, the square of pandas
`.std()` (default `ddof=1`).  For lists of length ≤ 1 pandas yields NaN;
in ℚ the division by zero yields 0, and theorems that depend on the
standard deviation require at least two entries. -/
def svar (xs : List ℚ) : ℚ :=
  (xs.map (fun x => (x - qmean xs) ^ 2)).sum / ((xs.length : ℚ) - 1)

/-- Insertion of an element into a list ordered by the boolean relation
`le`; helper for `sortLe`. -/
def insertLe {α : Type} (le : α → α → Bool) (a : α) : List α → List α
  | [] => [a]
  | b :: bs => if le a b then a :: b :: bs else b :: insertLe le a bs

/-- Insertion sort by a boolean relation; models pandas `sort_values` and
the ascending key order of pandas `groupby`/`pivot`.  (pandas' default
quicksort is not stable, but every sorted output the theorems below talk
about either has pairwise-distinct keys or is only inspected up to
permutation, so a deterministic stable sort is a faithful model.) -/
def sortLe {α : Type} (le : α → α → Bool) (l : List α) : List α :=
  l.foldr (insertLe le) []

/-- Order of first appearance of the values of a list, without repetition:
pandas `Series.unique`. -/
def firstSeen {α : Type} [DecidableEq α] (l : List α) : List α :=
  l.foldl (fun acc z => if z ∈ acc then acc else acc ++ [z]) []

instance {ε α : Type} [DecidableEq ε] [DecidableEq α] : DecidableEq (Except ε α) :=
  fun x y =>
    match x, y with
    | .ok a, .ok b =>
      if h : a = b then isTrue (by rw [h]) else isFalse (fun e => h (Except.ok.inj e))
    | .error a, .error b =>
      if h : a = b then isTrue (by rw [h]) else isFalse (fun e => h (Except.error.inj e))
    | .ok _, .error _ => isFalse (fun e => Except.noConfusion e)
    | .error _, .ok _ => isFalse (fun e => Except.noConfusion e)

/-- Python exception kinds that the embedded code can surface. -/
inductive PyError : Type
  | valueError
  | indexError
  | attributeError
  | nameError
  | keyError
deriving DecidableEq, Repr

/-- Cell of a raw spreadsheet: either text or a number. -/
inductive Cell : Type
  | str (s : String)
  | num (q : ℚ)
deriving DecidableEq, Repr

/-- Raw source file handed to the loaders: a file name (which encodes the
fiscal year as an `fy####` token), a header of column names, and the data
rows, each an association list from column name to cell. -/
structure RawFile : Type where
  name : String
  header : List String
  cells : List (List (String × Cell))
deriving DecidableEq, Repr

/-- Year extraction from a file name, as in
`re.search('fy\d{4}', filename.lower())` followed by stripping the
non-digits: the first case-insensitive occurrence of `fy` followed by four
decimal digits, returned as a number; `none` when the pattern does not occur
(in which case the Python code's `.group()` call on `None` raises
`AttributeError`). -/
def findFy : List Char → Option ℕ
  | 'f' :: 'y' :: a :: b :: c :: d :: rest =>
    if a.isDigit && b.isDigit && c.isDigit && d.isDigit then
      some (((a.toNat - 48) * 10 + (b.toNat - 48)) * 100 +
        ((c.toNat - 48) * 10 + (d.toNat - 48)))
    else findFy ('y' :: a :: b :: c :: d :: rest)
  | _ :: rest => findFy rest
  | [] => none

/-- Year encoded in a file name via the case-insensitive `fy####` token. -/
def extractYear (s : String) : Option ℕ :=
  findFy (s.data.map Char.toLower)

/-- Date at year/month granularity, as (year, month).  The source keeps
`datetime` values; day-of-month is constant (the 1st) everywhere. -/
abbrev Date : Type := ℤ × ℤ

/-- Column layout variants of the annual small-area FMR files.  Both
`prepareZipcodeData.py` and `dataProcessor.py` hold the same five
`column_variation_*` lists. -/
inductive Layout : Type
  | A
  | B
  | C
  | D
  | E
deriving DecidableEq, Repr

/-- The `column_variation_1` … `column_variation_5` header lists. -/
def use_cols : Layout → List String
  | .A => ["ZIP\nCode", "SAFMR\n0BR", "SAFMR\n1BR", "SAFMR\n2BR", "SAFMR\n3BR", "SAFMR\n4BR"]
  | .B => ["zcta", "safmr_0br", "safmr_1br", "safmr_2br", "safmr_3br", "safmr_4br"]
  | .C => ["zip_code", "area_rent_br0", "area_rent_br1", "area_rent_br2", "area_rent_br3",
      "area_rent_br4"]
  | .D => ["zipcode", "area_rent_br0", "area_rent_br1", "area_rent_br2", "area_rent_br3",
      "area_rent_br4"]
  | .E => ["ZIP", "area_rent_br0", "area_rent_br1", "area_rent_br2", "area_rent_br3",
      "area_rent_br4"]

/-- The canonical column names (`actual_col_names` in
`prepareZipcodeData.py`). -/
def actual_col_names : List String :=
  ["ZIPCODE", "Efficiency", "One-Bedroom", "Two-Bedroom", "Three-Bedroom", "Four-Bedroom"]

/-- Normalized row after a successful `read_excel` + rename: the identifier
column (dtype `str`) and the five rent columns (dtype `Float32`), which
after renaming are ZIPCODE, Efficiency, One-Bedroom, Two-Bedroom,
Three-Bedroom, Four-Bedroom (`b0` … `b4` here, hyphens not being legal in
Lean field names). -/
structure NRow : Type where
  zipcode : String
  b0 : ℚ
  b1 : ℚ
  b2 : ℚ
  b3 : ℚ
  b4 : ℚ
deriving DecidableEq, Repr

/-- Python `str(...)` cast of a cell (the `'str'` / `'string'` dtype). -/
def castStr : Cell → String
  | .str s => s
  | .num q => toString q

/-- Cast of a cell to the nullable `Float32` dtype; a textual cell makes
`read_excel` raise `ValueError`, modelled by `none`. -/
def castFloat : Cell → Option ℚ
  | .num q => some q
  | .str _ => none

/-- Model of `pd.read_excel(..., usecols=cols, dtype=[str] + [Float32]*5)`
for the six-column layouts: fails with `ValueError` when some requested
column is missing from the file's header (pandas: "Usecols do not match
columns") or when a rent cell is not numeric; otherwise yields one `NRow`
per data row.  Cells absent from a row are modelled as the same
`ValueError` failure (the corpora the claims quantify over carry complete
rows). -/
def read_excel (f : RawFile) (cols : List String) : Except PyError (List NRow) :=
  if cols.all (fun c => f.header.contains c) then
    match cols with
    | [c0, c1, c2, c3, c4, c5] =>
      match f.cells.mapM (fun row => do
          let id ← row.lookup c0
          let v1 ← row.lookup c1 >>= castFloat
          let v2 ← row.lookup c2 >>= castFloat
          let v3 ← row.lookup c3 >>= castFloat
          let v4 ← row.lookup c4 >>= castFloat
          let v5 ← row.lookup c5 >>= castFloat
          pure (NRow.mk (castStr id) v1 v2 v3 v4 v5)) with
      | some rows => Except.ok rows
      | none => Except.error PyError.valueError
    | _ => Except.error PyError.valueError
  else Except.error PyError.valueError

/-- Rows of a table having a given value in the identifier column. -/
def rowsWith (rows : List NRow) (z : String) : List NRow :=
  rows.filter (fun r => r.zipcode == z)

/-- The identifiers owning more than one row:
`fmr_data[[cols[0], cols[1]]].groupby(cols[0]).count()` restricted to
counts `> 1`.  `groupby` sorts its keys ascending, hence the sort; the
count of the first rent column equals the group size (the embedded cells
are non-null). -/
def dup_zips (rows : List NRow) : List String :=
  sortLe strLe
    ((firstSeen (rows.map (fun r => r.zipcode))).filter
      (fun z => 1 < (rowsWith rows z).length))

/-- One step of the deduplication loop of `common_zipcode_mean`: drop every
row of the identifier `z` from the working table and append the synthesized
aggregate row built by `meanRow` from the rows the working table held for
`z`. -/
def dedupStep (meanRow : List NRow → String → NRow) (acc : List NRow) (z : String) :
    List NRow :=
  (acc.filter (fun r => ¬ r.zipcode == z)) ++ [meanRow acc z]

/-- The deduplication loop over a list of duplicated identifiers. -/
def dedupFold (meanRow : List NRow → String → NRow) (rows : List NRow)
    (zs : List String) : List NRow :=
  zs.foldl (dedupStep meanRow) rows

/-- Result of the guarded `pd.read_excel` call in
`prepareZipcodeData.load_one_fmr_file`: either the parsed table, or — when
the `ValueError` was caught and printed — the pre-assigned `pd.DataFrame()`,
which has no columns at all. -/
inductive ReadFrame : Type
  | table (rows : List NRow)
  | emptyFrame
deriving DecidableEq, Repr

namespace prepareZipcodeData

/-- Layout selection of `prepareZipcodeData.load_one_fmr_file` (the
`if year >= 2018 and year != 2020: … else: column_variation_5` chain; the
final `else` catches every year not caught before, in particular all
`year <= 2014`). -/
def select_layout (year : ℕ) : Layout :=
  if 2018 ≤ year ∧ year ≠ 2020 then .A
  else if year = 2020 then .B
  else if 2016 ≤ year ∧ year ≤ 2017 then .C
  else if year = 2015 then .D
  else .E

/-- Rename dictionary `use_names = dict(zip(use_cols, actual_col_names))`. -/
def use_names (L : Layout) : List (String × String) :=
  (use_cols L).zip actual_col_names

/-- Header of the normalized table: the selected columns after applying the
rename dictionary. -/
def renamed_header (L : Layout) : List String :=
  (use_cols L).map (fun c => (((use_names L).lookup c).getD c))

/-- Aggregate row of the zip-level `common_zipcode_mean`: arithmetic mean
of each numeric column over the group, rounded up
(`temp.mean(numeric_only=True).apply(lambda x: math.ceil(x))`). -/
def mean_row (rows : List NRow) (z : String) : NRow :=
  let temp := rowsWith rows z
  { zipcode := z
    b0 := ((⌈qmean (temp.map (fun r => r.b0))⌉ : ℤ) : ℚ)
    b1 := ((⌈qmean (temp.map (fun r => r.b1))⌉ : ℤ) : ℚ)
    b2 := ((⌈qmean (temp.map (fun r => r.b2))⌉ : ℤ) : ℚ)
    b3 := ((⌈qmean (temp.map (fun r => r.b3))⌉ : ℤ) : ℚ)
    b4 := ((⌈qmean (temp.map (fun r => r.b4))⌉ : ℤ) : ℚ) }

/-- Entity deduplication of `prepareZipcodeData.common_zipcode_mean`:
for every identifier with more than one row, replace its rows by the single
ceiling-mean row, appended at the end of the working table. -/
def common_zipcode_mean (fmr_data : List NRow) : List NRow :=
  dedupFold mean_row fmr_data (dup_zips fmr_data)

/-- Application of `common_zipcode_mean` to the frame left by the guarded
read: on the caught-`ValueError` path the frame is the column-less
`pd.DataFrame()`, so `cols = list(fmr_data.columns)` is `[]` and the
subscript `cols[0]` raises an uncaught `IndexError`. -/
def common_zipcode_mean_frame : ReadFrame → Except PyError (List NRow)
  | .emptyFrame => Except.error PyError.indexError
  | .table rows => Except.ok (common_zipcode_mean rows)

/-- Zip-level row after the post-normalization date tagging: `df['Date'] =
datetime.strptime("10-" + str(year), '%m-%Y')`, i.e. 1 October of the
file's year. -/
structure DRow : Type where
  zipcode : String
  b0 : ℚ
  b1 : ℚ
  b2 : ℚ
  b3 : ℚ
  b4 : ℚ
  date : Date
deriving DecidableEq, Repr

/-- The zip-level loader `prepareZipcodeData.load_one_fmr_file`: extract
the year from the file name (`AttributeError` if the `fy####` token is
absent), select the layout, read the file with the caught-`ValueError`
guard, deduplicate, and tag the date. -/
def load_one_fmr_file (f : RawFile) : Except PyError (List DRow) := do
  let year ← match extractYear f.name with
    | some y => Except.ok y
    | none => Except.error PyError.attributeError
  let cols := use_cols (select_layout year)
  let frame : ReadFrame := match read_excel f cols with
    | .ok rows => .table rows
    | .error _ => .emptyFrame
  let rows ← common_zipcode_mean_frame frame
  Except.ok (rows.map (fun r =>
    DRow.mk r.zipcode r.b0 r.b1 r.b2 r.b3 r.b4 ((year : ℤ), 10)))

/-- Inner merge of the one-column zipcode frames
(`df_zip.merge(data_zip, how='inner', on='ZIPCODE')`): every left key is
repeated once per equal right key, in left order. -/
def inner_zip (dz : List String) (keys : List String) : List String :=
  dz.flatMap (fun z => (keys.filter (fun k => k == z)).map (fun _ => z))

/-- Inner merge `pd.merge(df, df_zip, how='inner', on='ZIPCODE')` of the
stacked corpus with the surviving-zipcode frame: each corpus row is
repeated once per equal key of `df_zip`, preserving left row order. -/
def inner_merge_rows (df : List DRow) (dz : List String) : List DRow :=
  df.flatMap (fun r => ((dz.filter (fun z => z == r.zipcode)).map (fun _ => r)))

/-- Loop state of `load_all_fmr_files`: the concatenated corpus `df` and
the running zipcode intersection `df_zip`.  The `df.shape[0] == 0` test
makes any file loaded while the corpus is still empty (re)initialize both
frames. -/
def assembleState (files : List RawFile) : Except PyError (List DRow × List String) :=
  files.foldlM
    (fun (st : List DRow × List String) f =>
      if st.1.length = 0 then do
        let d ← load_one_fmr_file f
        pure (d, d.map (fun r => r.zipcode))
      else do
        let data ← load_one_fmr_file f
        pure (st.1 ++ data, inner_zip st.2 (data.map (fun r => r.zipcode))))
    ([], [])

/-- Ascending `(Date, ZIPCODE)` key order used by
`sort_values(['Date', 'ZIPCODE'], ascending=True)`. -/
def drowLe (a b : DRow) : Bool :=
  decide (a.date.1 < b.date.1) ||
    (decide (a.date.1 = b.date.1) &&
      (decide (a.date.2 < b.date.2) ||
        (decide (a.date.2 = b.date.2) && strLe a.zipcode b.zipcode)))

/-- The stacked corpus assembly of `load_all_fmr_files` (lines 104-123):
load every file, restrict the concatenation to the running zipcode
intersection, and sort ascending by `(Date, ZIPCODE)`. -/
def assemble_stacked (files : List RawFile) : Except PyError (List DRow) := do
  let st ← assembleState files
  pure (sortLe drowLe (inner_merge_rows st.1 st.2))

/-- Corpus row after the metro-code left join: the `Metro_Codes` column is
nullable. -/
structure CRow : Type where
  zipcode : String
  b0 : ℚ
  b1 : ℚ
  b2 : ℚ
  b3 : ℚ
  b4 : ℚ
  date : Date
  metro_codes : Option String
deriving DecidableEq, Repr

/-- The `(year, file)` pairs scanned by `merge_area_code_zipcode`, in
directory order; a file name without the `fy####` token makes `.group()`
raise `AttributeError`. -/
def year_file_pairs : List RawFile → Except PyError (List (ℕ × RawFile))
  | [] => Except.ok []
  | f :: fs =>
    match extractYear f.name with
    | none => Except.error PyError.attributeError
    | some y =>
      match year_file_pairs fs with
      | .ok ps => Except.ok ((y, f) :: ps)
      | .error e => Except.error e

/-- Running maximum of the scanned years, starting from 0 (`max_year = 0`). -/
def max_year (pairs : List (ℕ × RawFile)) : ℕ :=
  pairs.foldl (fun m p => max m p.1) 0

/-- Lookup `map_year[y]`: dictionary assignment in scan order means the
last file carrying year `y` wins. -/
def map_year_lookup (pairs : List (ℕ × RawFile)) (y : ℕ) : Option RawFile :=
  ((pairs.filter (fun p => p.1 == y)).map (fun p => p.2)).getLast?

/-- Selection of the most recent file (`path = map_year[max_year]`); on an
empty directory `map_year[0]` raises `KeyError`. -/
def select_max_year_file (files : List RawFile) : Except PyError RawFile :=
  match year_file_pairs files with
  | .error e => Except.error e
  | .ok pairs =>
    match map_year_lookup pairs (max_year pairs) with
    | some f => Except.ok f
    | none => Except.error PyError.keyError

/-- Model of `pd.read_excel(path, usecols=['ZIP\nCode', 'HUD Area Code'],
dtype='string')` followed by the rename to `ZIPCODE` / `Metro_Codes`: the
raw identifier→area-code pairs of the selected file, read without any
deduplication.  The `ValueError` on a header without those two columns is
not caught by `merge_area_code_zipcode`. -/
def read_codes (f : RawFile) : Except PyError (List (String × String)) :=
  if f.header.contains "ZIP\nCode" && f.header.contains "HUD Area Code" then
    match f.cells.mapM (fun row => do
        let z ← row.lookup "ZIP\nCode"
        let c ← row.lookup "HUD Area Code"
        pure (castStr z, castStr c)) with
    | some l => Except.ok l
    | none => Except.error PyError.valueError
  else Except.error PyError.valueError

/-- Left join `pd.merge(fmr_data, codes, how='left', on='ZIPCODE')`: every
corpus row is kept; a row whose identifier has no match gets a null code;
a row whose identifier matches several code rows is repeated once per
match, in right order. -/
def left_join_codes (fmr_data : List DRow) (codes : List (String × String)) :
    List CRow :=
  fmr_data.flatMap (fun r =>
    let ms := codes.filter (fun c => c.1 == r.zipcode)
    if ms.isEmpty then
      [CRow.mk r.zipcode r.b0 r.b1 r.b2 r.b3 r.b4 r.date none]
    else
      ms.map (fun c => CRow.mk r.zipcode r.b0 r.b1 r.b2 r.b3 r.b4 r.date (some c.2)))

/-- The metro-code mapper `prepareZipcodeData.merge_area_code_zipcode`. -/
def merge_area_code_zipcode (fmr_data : List DRow) (files : List RawFile) :
    Except PyError (List CRow) := do
  let f ← select_max_year_file files
  let codes ← read_codes f
  pure (left_join_codes fmr_data codes)

/-- The full `prepareZipcodeData.load_all_fmr_files`: stacked assembly,
then the metro-code left join over the same directory. -/
def load_all_fmr_files (files : List RawFile) : Except PyError (List CRow) := do
  let df ← assemble_stacked files
  merge_area_code_zipcode df files

end prepareZipcodeData

namespace dataProcessor

/-- Layout selection of `dataProcessor.load_one_fmr_file`: unlike the
zip-level variant there is no final `else`, so a year not matching any
branch (every `year <= 2013`) leaves `use_cols` unassigned and the
subsequent `read_excel` call raises `NameError`. -/
def select_layout (year : ℕ) : Option Layout :=
  if 2018 ≤ year ∧ year ≠ 2020 then some .A
  else if year = 2020 then some .B
  else if year = 2017 ∨ year = 2016 then some .C
  else if year = 2015 then some .D
  else if year = 2014 then some .E
  else none

/-- The positional rename dictionary built by
`dataProcessor.assign_col_names`: column 0 becomes `ZIPCODE` and column
`k` (1 ≤ k ≤ 5) becomes `"<year>_<k-1>BR"`. -/
def assign_col_names (cols : List String) (year : ℕ) : List (String × String) :=
  cols.zip ["ZIPCODE", toString year ++ "_0BR", toString year ++ "_1BR",
    toString year ++ "_2BR", toString year ++ "_3BR", toString year ++ "_4BR"]

/-- Header of the metro-level normalized table after the rename. -/
def renamed_header (L : Layout) (year : ℕ) : List String :=
  (use_cols L).map (fun c => (((assign_col_names (use_cols L) year).lookup c).getD c))

/-- Aggregate row of the metro-level `common_zipcode_mean`: plain
unrounded arithmetic mean of each numeric column
(`temp.mean(numeric_only=True)`, no ceiling). -/
def mean_row (rows : List NRow) (z : String) : NRow :=
  let temp := rowsWith rows z
  { zipcode := z
    b0 := qmean (temp.map (fun r => r.b0))
    b1 := qmean (temp.map (fun r => r.b1))
    b2 := qmean (temp.map (fun r => r.b2))
    b3 := qmean (temp.map (fun r => r.b3))
    b4 := qmean (temp.map (fun r => r.b4)) }

/-- Entity deduplication of `dataProcessor.common_zipcode_mean` (identical
loop, unrounded mean). -/
def common_zipcode_mean (fmr_data : List NRow) : List NRow :=
  dedupFold mean_row fmr_data (dup_zips fmr_data)

/-- The metro-level loader `dataProcessor.load_one_fmr_file`.  A year
without a layout leaves `use_cols` unassigned (`NameError` at the
`read_excel` call); a caught read failure leaves `df` unassigned, so the
following `df.rename` raises (`UnboundLocalError`, a `NameError`
subclass).  On success the table is deduplicated and `set_index('ZIPCODE')`
only changes the index, not the row contents. -/
def load_one_fmr_file (f : RawFile) : Except PyError (List NRow) := do
  let year ← match extractYear f.name with
    | some y => Except.ok y
    | none => Except.error PyError.attributeError
  match select_layout year with
  | none => Except.error PyError.nameError
  | some L =>
    match read_excel f (use_cols L) with
    | .error _ => Except.error PyError.nameError
    | .ok rows => Except.ok (common_zipcode_mean rows)

end dataProcessor

/-- Ascending order on year/month dates. -/
def dateLeB (a b : Date) : Bool :=
  decide (a.1 < b.1) || (decide (a.1 = b.1) && decide (a.2 ≤ b.2))

namespace transformData

/-- Monthly CPI matrix as fetched from the BLS API: indexed by year, one
column per two-digit month code, cells possibly missing.  Each row carries
its `(month, cell)` pairs; the numeric year/month model the
`datetime.strptime(year + ' ' + month, '%Y %m')` parse of the string
labels. -/
structure CpiMatrix : Type where
  rows : List (ℤ × List (ℤ × Option ℚ))
deriving DecidableEq, Repr

/-- Pivot of one year row into a single-column `(Date, CPI)` table
(`pd.DataFrame(df.loc[years[year]])` reset, dated and renamed). -/
def pivotRow (r : ℤ × List (ℤ × Option ℚ)) : List (Date × Option ℚ) :=
  r.2.map (fun mc => (((r.1, mc.1) : Date), mc.2))

/-- pandas `.dropna()` on the single-column frame: drop rows with missing
value. -/
def dropna (l : List (Date × Option ℚ)) : List (Date × Option ℚ) :=
  l.filter (fun p => p.2.isSome)

/-- The concatenation loop of `transform_cpi_data`: the first year row is
copied as is, every later year row is appended and then the *accumulated*
frame is passed through `.dropna()` (`pd.concat([df_t, y], axis=0)
.dropna()`). -/
def transformAux : List (ℤ × List (ℤ × Option ℚ)) → List (Date × Option ℚ) →
    List (Date × Option ℚ)
  | [], acc => acc
  | r :: rs, acc => transformAux rs (dropna (acc ++ pivotRow r))

/-- Model of `transformData.transform_cpi_data`. -/
def transform_cpi_data (m : CpiMatrix) : List (Date × Option ℚ) :=
  match m.rows with
  | [] => []
  | r :: rs => transformAux rs (pivotRow r)

/-- Metro-level FMR row consumed by `smooth_and_merge`: a `Date` key plus
the five rent-size columns. -/
structure FmrRow : Type where
  date : Date
  b0 : ℚ
  b1 : ℚ
  b2 : ℚ
  b3 : ℚ
  b4 : ℚ
deriving DecidableEq, Repr

/-- Anchor of the year-long window containing a date under
`pd.Grouper(freq='YS-<month>')`: the window starts at `start_month` of the
same year when the month is at or past it, else of the previous year. -/
def anchor (start_month : ℤ) (d : Date) : Date :=
  if start_month ≤ d.2 then (d.1, start_month) else (d.1 - 1, start_month)

/-- Bin labels produced by the grouper: the full ascending run of yearly
anchors from the earliest to the latest anchor of the input (a time
grouper also emits the intermediate empty bins). -/
def bucketDates (start_month : ℤ) (cpi : List (Date × Option ℚ)) : List Date :=
  match cpi.map (fun p => (anchor start_month p.1).1) with
  | [] => []
  | y :: ys =>
    let lo := ys.foldl min y
    let hi := ys.foldl max y
    (List.range (hi - lo + 1).toNat).map (fun i => (((lo + i : ℤ), start_month) : Date))

/-- Mean of one bin (`.mean()` skips missing values; a bin with no present
value is NaN). -/
def bucketValue (start_month : ℤ) (cpi : List (Date × Option ℚ)) (d : Date) : Option ℚ :=
  let present := (cpi.filter (fun p => anchor start_month p.1 == d)).filterMap
    (fun p => p.2)
  if present.isEmpty then none else some (qmean present)

/-- The re-binned annual CPI series
(`cpi.groupby(pd.Grouper(freq=freq)).mean()`), ascending by bin label. -/
def smoothed_cpi (start_month : ℤ) (cpi : List (Date × Option ℚ)) :
    List (Date × Option ℚ) :=
  (bucketDates start_month cpi).map (fun d => (d, bucketValue start_month cpi d))

/-- Row-wise `Mean_Rent` of the merged frame: pandas `.mean(axis=1)` over
the five rent columns *and* the CPI column, skipping a missing CPI. -/
def mean_rent (r : FmrRow) (c : Option ℚ) : ℚ :=
  qmean ([r.b0, r.b1, r.b2, r.b3, r.b4] ++ c.toList)

/-- One output row of `smooth_and_merge`, in the column order of the final
selection
`combined[['Efficiency', 'One-Bedroom', 'Two-Bedroom', 'Three-Bedroom',
'Four-Bedroom', 'Mean_Rent', 'CPI']]`. -/
def out_row (r : FmrRow) (c : Option ℚ) : List (String × Option ℚ) :=
  [("Efficiency", some r.b0), ("One-Bedroom", some r.b1),
    ("Two-Bedroom", some r.b2), ("Three-Bedroom", some r.b3),
    ("Four-Bedroom", some r.b4), ("Mean_Rent", some (mean_rent r c)),
    ("CPI", c)]

/-- Model of `transformData.smooth_and_merge`: validate the implementation month
(`ValueError('start_month must be between 1 and 12')`), re-bin the CPI
series into annual windows anchored at that month, inner-join with the FMR
table on exact date equality, and emit the fixed column selection. -/
def smooth_and_merge (cpi : List (Date × Option ℚ)) (fmr : List FmrRow)
    (start_month : ℤ) : Except PyError (List (List (String × Option ℚ))) :=
  if 1 ≤ start_month ∧ start_month ≤ 12 then
    let sc := smoothed_cpi start_month cpi
    Except.ok (fmr.flatMap (fun r =>
      (sc.filter (fun b => b.1 == r.date)).map (fun b => out_row r b.2)))
  else Except.error PyError.valueError

end transformData

namespace analyze

/-- The six permitted analysis fields (`acceptable_values`). -/
def acceptable_values : List String :=
  ["Efficiency", "One-Bedroom", "Two-Bedroom", "Three-Bedroom", "Four-Bedroom",
    "Mean_Rent"]

/-- Pairwise-complete rows of `(field, CPI.shift(lag))`: row `i` of the
shifted CPI column is `CPI[i-lag]` (missing for `i < lag`), so the
non-missing pairs are `field[lag..]` against `CPI[0..]`. -/
def overlap (lag : ℕ) (df : List (ℚ × ℚ)) : List (ℚ × ℚ) :=
  ((df.map Prod.fst).drop lag).zip (df.map Prod.snd)

/-- Square-root-free representation `(s, d)` of the Pearson correlation
`r = s / √d` of a list of pairs, with `s = Σ(x-x̄)(y-ȳ)` and
`d = Σ(x-x̄)² · Σ(y-ȳ)²`.  pandas' `corr` is NaN exactly when `d = 0`
(fewer than two pairs or a constant column).  The per-column affine
normalization `(v - v.mean()) / v.std()` the source applies before `corr`
leaves the Pearson coefficient unchanged whenever it is defined (positive
scaling), and in the degenerate cases both the source and this
representation yield NaN, so `corrRep` is computed from the raw overlap. -/
def corrRep (ps : List (ℚ × ℚ)) : ℚ × ℚ :=
  let xs := ps.map Prod.fst
  let ys := ps.map Prod.snd
  let xm := qmean xs
  let ym := qmean ys
  let s := (ps.map (fun p => (p.1 - xm) * (p.2 - ym))).sum
  let dx := (xs.map (fun x => (x - xm) ^ 2)).sum
  let dy := (ys.map (fun y => (y - ym) ^ 2)).sum
  (s, dx * dy)

/-- Exact decision of `s1/√d1 > s2/√d2` for representations with
nonnegative `d`: a NaN left side (`d1 = 0`, and then also `s1 = 0`)
compares false, mirroring float NaN comparison. -/
def sqGt (s1 d1 s2 d2 : ℚ) : Bool :=
  if d1 ≤ 0 then false
  else if 0 < s1 then decide (s2 ≤ 0) || decide (s2 ^ 2 * d1 < s1 ^ 2 * d2)
  else decide (s2 < 0) && decide (s1 ^ 2 * d2 < s2 ^ 2 * d1)

/-- Exact decision of `s/√d < c` for a positive threshold `c` and `d > 0`
(also correct for the initial float pair `s = 0, d = 1`). -/
def sqLtC (s d c : ℚ) : Bool :=
  decide (s ≤ 0) || decide (s ^ 2 < c ^ 2 * d)

/-- Running best of the lag search loop: the correlation representation
and the lag that achieved it (`best_corr = 0`, `best_lag = 0` initially,
with the float zero written as `0/√1`). -/
structure BestState : Type where
  s : ℚ
  d : ℚ
  lag : ℕ
deriving DecidableEq, Repr

/-- One iteration of `for lag in range(0, 4)`: shift, normalize, correlate
and keep the lag when its correlation strictly exceeds the running best. -/
def lagStep (df : List (ℚ × ℚ)) (b : BestState) (l : ℕ) : BestState :=
  let c := corrRep (overlap l df)
  if sqGt c.1 c.2 b.s b.d then ⟨c.1, c.2, l⟩ else b

/-- The search loop over lags 0, 1, 2, 3. -/
def lagFold (df : List (ℚ × ℚ)) : BestState :=
  [0, 1, 2, 3].foldl (lagStep df) ⟨0, 1, 0⟩

/-- Search mode of `analyze.lag_calculator`: `none` models the
"No correlation was found" outcome (best correlation below the 0.80
threshold, nothing else reported); otherwise the winning lag with the
representation of its correlation. -/
def lag_calculator_search (df : List (ℚ × ℚ)) : Option (ℕ × ℚ × ℚ) :=
  let b := lagFold df
  if sqLtC b.s b.d (4 / 5) then none else some (b.lag, b.s, b.d)

/-- Model of `analyze.lag_calculator` with `use_estimate=False`: validate the field
name, then run the search. -/
def lag_calculator (field : String) (df : List (ℚ × ℚ)) :
    Except PyError (Option (ℕ × ℚ × ℚ)) :=
  if field ∈ acceptable_values then Except.ok (lag_calculator_search df)
  else Except.error PyError.valueError

/-- Long-format input row of `zipcodes_trends` after the projection
`df[['ZIPCODE', field_to_analyze, 'Date']]`. -/
structure TrendRow : Type where
  zipcode : String
  value : ℚ
  date : Date
deriving DecidableEq, Repr

/-- Model of the line `zips = list(df.ZIPCODE.unique())`: first-appearance order. -/
def trend_zips (df : List TrendRow) : List String :=
  firstSeen (df.map (fun r => r.zipcode))

/-- Column labels of the pivot, which pandas sorts ascending. -/
def pivot_zips (df : List TrendRow) : List String :=
  sortLe strLe (trend_zips df)

/-- Index labels of the pivot (`index='Date'`), sorted ascending. -/
def trend_dates (df : List TrendRow) : List Date :=
  sortLe dateLeB (firstSeen (df.map (fun r => r.date)))

/-- Cell of `df.pivot(columns='ZIPCODE', index='Date', values=field)`.
pandas raises on duplicate `(Date, ZIPCODE)` pairs and fills absent pairs
with NaN; the claims evaluate the scorer on complete tables (exactly one
row per pair), where the lookup always succeeds and the default is
unreachable. -/
def cellValue (df : List TrendRow) (d : Date) (z : String) : ℚ :=
  ((df.find? (fun r => r.zipcode == z && r.date == d)).map
    (fun r => r.value)).getD 0

/-- Level series of one pivot column across the sorted dates. -/
def levelsOf (df : List TrendRow) (z : String) : List ℚ :=
  (trend_dates df).map (fun d => cellValue df d z)

/-- pandas `.pct_change()` of a series (each value divided by its
predecessor, minus one); the undefined first entry, dropped by the
source's `.dropna()`, is never produced. -/
def pctSeries (xs : List ℚ) : List ℚ :=
  List.zipWith (fun prev cur => cur / prev - 1) xs xs.tail

/-- Level series of the `Mean_Rent` column (`df_pivot.mean(axis=1)` over
the zipcode columns, added before `.pct_change()`). -/
def meanLevels (df : List TrendRow) : List ℚ :=
  (trend_dates df).map (fun d => qmean ((pivot_zips df).map (fun z => cellValue df d z)))

/-- Percentage change of zipcode `z` in period `j` (period `j` goes from
date `j` to date `j+1`; the first pivot row disappears with `.dropna()`). -/
def pctAt (df : List TrendRow) (z : String) (j : ℕ) : ℚ :=
  (pctSeries (levelsOf df z)).getD j 0

/-- Percentage change of the `Mean_Rent` column in period `j`. -/
def meanPctAt (df : List TrendRow) (j : ℕ) : ℚ :=
  (pctSeries (meanLevels df)).getD j 0

/-- Cross-zipcode sample variance of the percentage changes of period `j`
(the square of the `STD` column, computed with the `Mean_Rent` column
dropped). -/
def stdVarAt (df : List TrendRow) (j : ℕ) : ℚ :=
  svar ((pivot_zips df).map (fun z => pctAt df z j))

/-- Number of percentage-change periods (`len(dates) - 1`). -/
def periodCount (df : List TrendRow) : ℕ :=
  (trend_dates df).length - 1

/-- Truth of `df_pivot[z] >= df_pivot['Upper_Limit']` in period `j`, with
`Upper_Limit = Mean_Rent + 2·STD`.  Since `STD = √stdVarAt` is irrational
over ℚ, the comparison `v ≥ m + 2·σ` is decided exactly through its
square-encoded equivalent `v ≥ m ∧ (v-m)² ≥ 4·σ²`. -/
def upperFlag (df : List TrendRow) (z : String) (j : ℕ) : Bool :=
  let v := pctAt df z j
  let m := meanPctAt df j
  decide (m ≤ v) && decide (4 * stdVarAt df j ≤ (v - m) ^ 2)

/-- Truth of `df_pivot[z] <= df_pivot['Lower_Limit']` in period `j`, with
`Lower_Limit = Mean_Rent - 2·STD`, square-encoded like `upperFlag`. -/
def lowerFlag (df : List TrendRow) (z : String) (j : ℕ) : Bool :=
  let v := pctAt df z j
  let m := meanPctAt df j
  decide (v ≤ m) && decide (4 * stdVarAt df j ≤ (m - v) ^ 2)

/-- The count the source extracts from a boolean flag series: with
`vc = flags.value_counts()` (sorted by frequency, descending) it takes
`vc.iloc[1]` when both truth values occur (`vc.shape[0] == 2`) and `0`
otherwise.  `vc.iloc[1]` is the frequency of the *less frequent* value —
when the counts tie, both equal the minimum — so the extracted number is
`min(trueCount, falseCount)` whenever both values occur, and 0 when the
series is constant (or empty). -/
def value_counts_iloc1 (bs : List Bool) : ℕ :=
  let t := bs.count true
  let f := bs.count false
  if 0 < t ∧ 0 < f then min t f else 0

/-- Output row of `zipcodes_trends` (dtype casts to `string`/`Int8` do not
change the small values involved). -/
structure DevRow : Type where
  zipcode : String
  above_std : ℕ
  below_std : ℕ
  total : ℕ
  mean_growth_rate : ℚ
deriving DecidableEq, Repr

/-- Descending `(Total, Above STD, Below STD)` order of the final
`sort_values(..., ascending=False)`. -/
def devLe (a b : DevRow) : Bool :=
  decide (b.total < a.total) ||
    (decide (a.total = b.total) &&
      (decide (b.above_std < a.above_std) ||
        (decide (a.above_std = b.above_std) && decide (b.below_std ≤ a.below_std))))

/-- The per-zipcode record assembled inside the `for z in zips` loop. -/
def devRowOf (df : List TrendRow) (z : String) : DevRow :=
  let u := (List.range (periodCount df)).map (fun j => upperFlag df z j)
  let l := (List.range (periodCount df)).map (fun j => lowerFlag df z j)
  let uc := value_counts_iloc1 u
  let lc := value_counts_iloc1 l
  ⟨z, uc, lc, uc + lc, qmean (pctSeries (levelsOf df z))⟩

/-- Model of `analyze.zipcodes_trends`: validate the field, pivot, convert to
percentage change, band by `Mean_Rent ± 2·STD`, count the flagged periods
per zipcode and sort the report descending. -/
def zipcodes_trends (field : String) (df : List TrendRow) :
    Except PyError (List DevRow) :=
  if field ∈ acceptable_values then
    Except.ok (sortLe devLe ((trend_zips df).map (fun z => devRowOf df z)))
  else Except.error PyError.valueError

/-- Number of periods in which the zipcode's percentage change *strictly
exceeds* `Upper_Limit = Mean_Rent + 2·STD` — the count the specification
text describes ("count the number of periods where its value exceeds
Upper_Limit"), stated directly from the spec's words for comparison with
the code's `value_counts`-based extraction. -/
def spec_above_count (df : List TrendRow) (z : String) : ℕ :=
  ((List.range (periodCount df)).filter (fun j =>
    let v := pctAt df z j
    let m := meanPctAt df j
    decide (m < v) && decide (4 * stdVarAt df j < (v - m) ^ 2))).length

/-- Number of periods strictly below `Lower_Limit`, from the spec's words. -/
def spec_below_count (df : List TrendRow) (z : String) : ℕ :=
  ((List.range (periodCount df)).filter (fun j =>
    let v := pctAt df z j
    let m := meanPctAt df j
    decide (v < m) && decide (4 * stdVarAt df j < (m - v) ^ 2))).length

/-- Failing input for the Anomaly Scorer's count extraction: six zipcodes
A–F over four anchor dates, complete (one row per pair).  The levels are
engineered so that zipcode A's percentage change is *strictly above*
`Upper_Limit = Mean_Rent + 2·STD` in the first two change periods and
inside the band in the third: A grows by 2% while the others shrink
(period 1), by 20% against shrinking peers (period 2), then shrinks with
the pack (period 3). -/
def exC1 : List TrendRow :=
  [⟨"A", 100, (1, 10)⟩, ⟨"B", 100, (1, 10)⟩, ⟨"C", 100, (1, 10)⟩,
    ⟨"D", 100, (1, 10)⟩, ⟨"E", 100, (1, 10)⟩, ⟨"F", 100, (1, 10)⟩,
    ⟨"A", 102, (2, 10)⟩, ⟨"B", 9961 / 100, (2, 10)⟩, ⟨"C", 9961 / 100, (2, 10)⟩,
    ⟨"D", 9961 / 100, (2, 10)⟩, ⟨"E", 9961 / 100, (2, 10)⟩, ⟨"F", 2489 / 25, (2, 10)⟩,
    ⟨"A", 612 / 5, (3, 10)⟩, ⟨"B", 9572521 / 100000, (3, 10)⟩,
    ⟨"C", 9572521 / 100000, (3, 10)⟩, ⟨"D", 9572521 / 100000, (3, 10)⟩,
    ⟨"E", 9572521 / 100000, (3, 10)⟩, ⟨"F", 9517936 / 100000, (3, 10)⟩,
    ⟨"A", 1176264 / 10000, (4, 10)⟩, ⟨"B", 114870252 / 1000000, (4, 10)⟩,
    ⟨"C", 9199192681 / 100000000, (4, 10)⟩, ⟨"D", 9199192681 / 100000000, (4, 10)⟩,
    ⟨"E", 9199192681 / 100000000, (4, 10)⟩, ⟨"F", 9099146816 / 100000000, (4, 10)⟩]

end analyze

/-- Well-formed 2021 small-area file: header and cells follow layout A
(`column_variation_1`), the layout selected for year 2021. -/
def fileGood2021 : RawFile :=
  { name := "fy2021_safmrs.csv"
    header := ["ZIP\nCode", "SAFMR\n0BR", "SAFMR\n1BR", "SAFMR\n2BR", "SAFMR\n3BR",
      "SAFMR\n4BR", "HUD Area Code"]
    cells := [[("ZIP\nCode", .str "10001"), ("SAFMR\n0BR", .num 1000),
      ("SAFMR\n1BR", .num 1100), ("SAFMR\n2BR", .num 1200), ("SAFMR\n3BR", .num 1300),
      ("SAFMR\n4BR", .num 1400), ("HUD Area Code", .str "METRO1")]] }

/-- Malformed 2020 file: its name selects layout B (`zcta`, `safmr_0br`, …)
but its actual columns follow layout A, so `read_excel(usecols=…)` raises
the `ValueError` that `load_one_fmr_file` catches and logs. -/
def fileBad2020 : RawFile :=
  { name := "fy2020_safmrs.csv"
    header := ["ZIP\nCode", "SAFMR\n0BR", "SAFMR\n1BR", "SAFMR\n2BR", "SAFMR\n3BR",
      "SAFMR\n4BR"]
    cells := [[("ZIP\nCode", .str "10001"), ("SAFMR\n0BR", .num 900),
      ("SAFMR\n1BR", .num 950), ("SAFMR\n2BR", .num 990), ("SAFMR\n3BR", .num 1050),
      ("SAFMR\n4BR", .num 1090)]] }

/-- Well-formed layout-E file from fiscal year 2013. -/
def fileE2013 : RawFile :=
  { name := "fy2013_safmrs.csv"
    header := ["ZIP", "area_rent_br0", "area_rent_br1", "area_rent_br2", "area_rent_br3",
      "area_rent_br4"]
    cells := [[("ZIP", .str "10001"), ("area_rent_br0", .num 800),
      ("area_rent_br1", .num 850), ("area_rent_br2", .num 900), ("area_rent_br3", .num 950),
      ("area_rent_br4", .num 1000)]] }

/-- Single-year CPI matrix carrying one missing cell. -/
def exC5single : transformData.CpiMatrix := ⟨[(2020, [(1, some 5), (3, none)])]⟩

/-- Two-year CPI matrix whose year rows arrive in descending order. -/
def exC5desc : transformData.CpiMatrix :=
  ⟨[(2021, [(1, some 7)]), (2020, [(1, some 5)])]⟩

/-- Ascending two-year CPI matrix with one missing cell, for the witness. -/
def exC5asc : transformData.CpiMatrix :=
  ⟨[(2020, [(1, some 5), (3, none)]), (2021, [(1, some 7)])]⟩

/-- Fixed column selection of `smooth_and_merge` (source line
`return combined[[...]]`). -/
def smoothMergeCols : List String :=
  ["Efficiency", "One-Bedroom", "Two-Bedroom", "Three-Bedroom", "Four-Bedroom",
    "Mean_Rent", "CPI"]

/-- Monthly CPI input for the C6 witness: November 2020 and February 2021
both fall in the year window anchored at October 2020. -/
def exC6cpi : List (Date × Option ℚ) := [((2020, 11), some 6), ((2021, 2), some 10)]

/-- FMR input for the C6 witness: one metro row dated 1 October 2020. -/
def exC6fmr : List transformData.FmrRow := [⟨(2020, 10), 1, 2, 3, 4, 5⟩]

/-- The single merged row the C6 witness inspects. -/
def exC6row : List (String × Option ℚ) :=
  transformData.out_row ⟨(2020, 10), 1, 2, 3, 4, 5⟩ (some 8)

/-- One-row corpus for the C4 counterexample. -/
def exC4corpus : List prepareZipcodeData.DRow := [⟨"10001", 1, 2, 3, 4, 5, (2021, 10)⟩]

/-- Most-recent (fy2021) file whose raw mapping columns carry the zipcode
10001 twice, with two different area codes — exactly the multi-county
duplication that `common_zipcode_mean` exists to collapse, but which
`merge_area_code_zipcode` reads without deduplication. -/
def fileCodesDup : RawFile :=
  { name := "fy2021_codes.csv"
    header := ["ZIP\nCode", "HUD Area Code"]
    cells := [[("ZIP\nCode", .str "10001"), ("HUD Area Code", .str "METRO1")],
      [("ZIP\nCode", .str "10001"), ("HUD Area Code", .str "METRO2")]] }

/-- Output of the metro-code join on the duplicated mapping. -/
def exC4out : List prepareZipcodeData.CRow :=
  [⟨"10001", 1, 2, 3, 4, 5, (2021, 10), some "METRO1"⟩,
    ⟨"10001", 1, 2, 3, 4, 5, (2021, 10), some "METRO2"⟩]

/-- Identifier column of a normalized table. -/
def keysOf (rows : List NRow) : List String := rows.map (fun r => r.zipcode)

/-- Duplicated-key table of the specification's concrete deduplication
example: one entity with the three value rows 10, 12, 14. -/
def exC8 : List NRow :=
  [⟨"Z", 10, 10, 10, 10, 10⟩, ⟨"Z", 12, 12, 12, 12, 12⟩, ⟨"Z", 14, 14, 14, 14, 14⟩]

namespace prepareZipcodeData

/-- Keys of a dated table. -/
def dkeys (t : List DRow) : List String := t.map (fun r => r.zipcode)

/-- The pure content of the `load_all_fmr_files` accumulation loop, with
each file's already-loaded table substituted for its load: concatenate,
and keep the running zipcode intersection (a table hit while the corpus is
still empty reinitializes both, like the source's `df.shape[0] == 0`
test). -/
def stackStatePure (tables : List (List DRow)) : List DRow × List String :=
  tables.foldl
    (fun st t =>
      if st.1.length = 0 then (t, dkeys t)
      else (st.1 ++ t, inner_zip st.2 (dkeys t)))
    ([], [])

end prepareZipcodeData

/-- Three-year corpus: zipcode 10001 appears in fiscal years 2018 and 2019
but not 2021; zipcode 10002 appears in all three. -/
def exFile2018 : RawFile :=
  { name := "fy2018.csv"
    header := ["ZIP\nCode", "SAFMR\n0BR", "SAFMR\n1BR", "SAFMR\n2BR", "SAFMR\n3BR",
      "SAFMR\n4BR"]
    cells := [[("ZIP\nCode", .str "10001"), ("SAFMR\n0BR", .num 100),
      ("SAFMR\n1BR", .num 110), ("SAFMR\n2BR", .num 120), ("SAFMR\n3BR", .num 130),
      ("SAFMR\n4BR", .num 140)],
      [("ZIP\nCode", .str "10002"), ("SAFMR\n0BR", .num 200),
      ("SAFMR\n1BR", .num 210), ("SAFMR\n2BR", .num 220), ("SAFMR\n3BR", .num 230),
      ("SAFMR\n4BR", .num 240)]] }

/-- Second year of the concrete corpus. -/
def exFile2019 : RawFile :=
  { name := "fy2019.csv"
    header := ["ZIP\nCode", "SAFMR\n0BR", "SAFMR\n1BR", "SAFMR\n2BR", "SAFMR\n3BR",
      "SAFMR\n4BR"]
    cells := [[("ZIP\nCode", .str "10001"), ("SAFMR\n0BR", .num 101),
      ("SAFMR\n1BR", .num 111), ("SAFMR\n2BR", .num 121), ("SAFMR\n3BR", .num 131),
      ("SAFMR\n4BR", .num 141)],
      [("ZIP\nCode", .str "10002"), ("SAFMR\n0BR", .num 201),
      ("SAFMR\n1BR", .num 211), ("SAFMR\n2BR", .num 221), ("SAFMR\n3BR", .num 231),
      ("SAFMR\n4BR", .num 241)]] }

/-- Third year of the concrete corpus: zipcode 10001 is gone. -/
def exFile2021C9 : RawFile :=
  { name := "fy2021.csv"
    header := ["ZIP\nCode", "SAFMR\n0BR", "SAFMR\n1BR", "SAFMR\n2BR", "SAFMR\n3BR",
      "SAFMR\n4BR"]
    cells := [[("ZIP\nCode", .str "10002"), ("SAFMR\n0BR", .num 202),
      ("SAFMR\n1BR", .num 212), ("SAFMR\n2BR", .num 222), ("SAFMR\n3BR", .num 232),
      ("SAFMR\n4BR", .num 242)]] }

/-- Output of the stacked assembly on the concrete three-year corpus. -/
def exC9out : List prepareZipcodeData.DRow :=
  [⟨"10002", 200, 210, 220, 230, 240, (2018, 10)⟩,
    ⟨"10002", 201, 211, 221, 231, 241, (2019, 10)⟩,
    ⟨"10002", 202, 212, 222, 232, 242, (2021, 10)⟩]

/-- Table loaded from `exFile2018`, date-tagged 1 October 2018. -/
def exC9table : List prepareZipcodeData.DRow :=
  [⟨"10001", 100, 110, 120, 130, 140, (2018, 10)⟩,
    ⟨"10002", 200, 210, 220, 230, 240, (2018, 10)⟩]

namespace analyze

/-- Invariant of the lag search loop after processing the lags of
`processed`: the best correlation representation has a positive
denominator; it is either still the initial float 0 (written `0/√1`) with
lag 0, or positive and achieved at a processed lag; no processed lag
strictly beats it; and it strictly beats every processed lag smaller than
the best lag (so the best lag is the *first* maximizer). -/
structure SearchInv (df : List (ℚ × ℚ)) (processed : List ℕ) (b : BestState) : Prop where
  dpos : 0 < b.d
  base : (b.s = 0 ∧ b.d = 1 ∧ b.lag = 0) ∨ (0 < b.s ∧ b.lag ∈ processed)
  not_beaten : ∀ l ∈ processed,
    sqGt (corrRep (overlap l df)).1 (corrRep (overlap l df)).2 b.s b.d = false
  beats_earlier : ∀ l ∈ processed, l < b.lag →
    sqGt b.s b.d (corrRep (overlap l df)).1 (corrRep (overlap l df)).2 = true

/-- Aligned two-column input whose field column equals the CPI column
shifted down by exactly two rows, with no noise: `field[i] = CPI[i-2]`
(the first two field entries are arbitrary). -/
def exC7 : List (ℚ × ℚ) := [(7, 1), (9, 2), (1, 5), (2, 8), (5, 3), (8, 7)]

/-- Identical, geometric field and CPI columns: every lag in {0,1,2,3} has
Pearson correlation exactly 1. -/
def exC10 : List (ℚ × ℚ) := [(1, 1), (2, 2), (4, 4), (8, 8), (16, 16), (32, 32)]

end analyze

theorem charListLe_total (a b : List Char) : charListLe a b ∨ charListLe b a := by
  induction a generalizing b with
  | nil => left; simp [charListLe]
  | cons x xs ih =>
    cases b with
    | nil => right; simp [charListLe]
    | cons y ys =>
      by_cases hxy : x = y
      · subst hxy
        rcases ih ys with h | h
        · left; simpa [charListLe] using h
        · right; simpa [charListLe] using h
      · rcases lt_or_gt_of_ne (show x ≠ y from hxy) with h | h
        · left; simp [charListLe, hxy, h]
        · right
          have hyx : y ≠ x := fun e => hxy e.symm
          simp [charListLe, hyx, h]

theorem charListLe_trans (a b c : List Char) (hab : charListLe a b)
    (hbc : charListLe b c) : charListLe a c = true := by
  induction a generalizing b c with
  | nil => simp [charListLe]
  | cons x xs ih =>
    cases b with
    | nil => simp [charListLe] at hab
    | cons y ys =>
      cases c with
      | nil => simp [charListLe] at hbc
      | cons z zs =>
        by_cases hxy : x = y <;> by_cases hyz : y = z
        · subst hxy; subst hyz
          simp only [charListLe, if_pos rfl] at hab hbc ⊢
          exact ih ys zs hab hbc
        · subst hxy
          simp only [charListLe, if_pos rfl, if_neg hyz] at hbc ⊢
          exact hbc
        · subst hyz
          simp only [charListLe, if_pos rfl, if_neg hxy] at hab ⊢
          exact hab
        · simp only [charListLe, if_neg hxy, if_neg hyz, decide_eq_true_eq] at hab hbc
          have hxz : x < z := lt_trans hab hbc
          have hne : x ≠ z := ne_of_lt hxz
          simp [charListLe, hne, hxz]

theorem strLe_total (a b : String) : strLe a b ∨ strLe b a :=
  charListLe_total a.data b.data

theorem strLe_trans (a b c : String) (hab : strLe a b) (hbc : strLe b c) :
    strLe a c = true := charListLe_trans a.data b.data c.data hab hbc

theorem insertLe_perm {α : Type} (le : α → α → Bool) (a : α) (l : List α) :
    List.Perm (insertLe le a l) (a :: l) := by
  induction l with
  | nil => simp [insertLe]
  | cons b bs ih =>
    by_cases h : le a b
    · simp [insertLe, h]
    · simp only [insertLe, h, if_false, Bool.false_eq_true]
      exact (ih.cons b).trans (List.Perm.swap a b bs)

theorem sortLe_perm {α : Type} (le : α → α → Bool) (l : List α) :
    List.Perm (sortLe le l) l := by
  induction l with
  | nil => simp [sortLe]
  | cons a as ih =>
    exact (insertLe_perm le a (sortLe le as)).trans (ih.cons a)

theorem mem_sortLe {α : Type} (le : α → α → Bool) (l : List α) (a : α) :
    a ∈ sortLe le l ↔ a ∈ l := (sortLe_perm le l).mem_iff

theorem insertLe_pairwise {α : Type} (le : α → α → Bool)
    (htot : ∀ a b, le a b ∨ le b a) (htrans : ∀ a b c, le a b → le b c → le a c)
    (a : α) (l : List α) (hl : l.Pairwise (fun x y => le x y = true)) :
    (insertLe le a l).Pairwise (fun x y => le x y = true) := by
  induction l with
  | nil => simp [insertLe]
  | cons b bs ih =>
    rcases hl with _ | ⟨hb, hbs⟩
    by_cases h : le a b
    · simp only [insertLe, h, if_true]
      refine List.Pairwise.cons ?_ (List.Pairwise.cons hb hbs)
      intro x hx
      rcases List.mem_cons.mp hx with rfl | hx
      · exact h
      · exact htrans a b x h (hb x hx)
    · simp only [insertLe, h, if_false, Bool.false_eq_true]
      refine List.Pairwise.cons ?_ (ih hbs)
      intro x hx
      rw [(insertLe_perm le a bs).mem_iff] at hx
      rcases List.mem_cons.mp hx with hxa | hx
      · rw [hxa]
        rcases htot a b with hab | hba
        · exact absurd hab h
        · exact hba
      · exact hb x hx

theorem sortLe_pairwise {α : Type} (le : α → α → Bool)
    (htot : ∀ a b, le a b ∨ le b a) (htrans : ∀ a b c, le a b → le b c → le a c)
    (l : List α) : (sortLe le l).Pairwise (fun x y => le x y = true) := by
  induction l with
  | nil => exact List.Pairwise.nil
  | cons a as ih => exact insertLe_pairwise le htot htrans a _ ih

theorem mem_firstSeen_aux {α : Type} [DecidableEq α] (l acc : List α) (a : α) :
    a ∈ l.foldl (fun acc z => if z ∈ acc then acc else acc ++ [z]) acc ↔
      a ∈ acc ∨ a ∈ l := by
  induction l generalizing acc with
  | nil => simp
  | cons b bs ih =>
    simp only [List.foldl_cons]
    by_cases hb : b ∈ acc
    · rw [if_pos hb, ih]
      constructor
      · rintro (h | h)
        · exact Or.inl h
        · exact Or.inr (List.mem_cons_of_mem b h)
      · rintro (h | h)
        · exact Or.inl h
        · rcases List.mem_cons.mp h with rfl | h
          · exact Or.inl hb
          · exact Or.inr h
    · rw [if_neg hb, ih]
      simp only [List.mem_append, List.mem_singleton, List.mem_cons]
      tauto

theorem mem_firstSeen {α : Type} [DecidableEq α] (l : List α) (a : α) :
    a ∈ firstSeen l ↔ a ∈ l := by
  rw [firstSeen, mem_firstSeen_aux]
  simp

theorem nodup_firstSeen_aux {α : Type} [DecidableEq α] (l acc : List α)
    (hacc : acc.Nodup) :
    (l.foldl (fun acc z => if z ∈ acc then acc else acc ++ [z]) acc).Nodup := by
  induction l generalizing acc with
  | nil => exact hacc
  | cons b bs ih =>
    simp only [List.foldl_cons]
    by_cases hb : b ∈ acc
    · rw [if_pos hb]; exact ih acc hacc
    · rw [if_neg hb]
      refine ih _ ?_
      simp [List.nodup_append, hacc, hb]

theorem nodup_firstSeen {α : Type} [DecidableEq α] (l : List α) :
    (firstSeen l).Nodup := nodup_firstSeen_aux l [] List.nodup_nil

/-- C1.  The claim says the reported "Above STD" count equals the number
of periods in which the entity's percentage change exceeds `Upper_Limit`.
The code extracts the count as `value_counts().iloc[1]`, the frequency of
the *less frequent* truth value: on `exC1`, zipcode A is strictly above
the upper band in exactly 2 of the 3 periods (`spec_above_count = 2`,
`spec_below_count = 0`), yet the emitted report carries `Above STD = 1`
(the frequency of the minority value `False`), contradicting both the
claim and the function's own docstring.  This theorem evaluates the
embedded scorer at the failing input. -/
theorem C1_above_std_count_code_bug :
    (analyze.zipcodes_trends "Efficiency" analyze.exC1).map
        (fun rep => rep.find? (fun r => r.zipcode == "A")) =
      Except.ok (some ⟨"A", 1, 0, 1, 181 / 3000⟩) ∧
    analyze.spec_above_count analyze.exC1 "A" = 2 ∧
    analyze.spec_below_count analyze.exC1 "A" = 0 :=
  ⟨by decide, by decide, by decide⟩

/-- C2.  The claim says a column mismatch is logged without raising, the
file contributes no normalized rows, and a multi-file corpus load
continues over the remaining files.  In the code the caught `ValueError`
leaves `df` as the column-less `pd.DataFrame()`, and `common_zipcode_mean`
then evaluates `cols[0]` on an empty column list, raising an uncaught
`IndexError` — so the mismatching file aborts `load_one_fmr_file`, and a
corpus load containing it aborts as well, contradicting the claim (and the
code's own intent of catching the mismatch).  In the metro-level variant
the caught branch leaves `df` unassigned and `df.rename` raises
`UnboundLocalError` (a `NameError`).  This theorem evaluates both loaders
at the failing input. -/
theorem C2_format_mismatch_code_bug :
    prepareZipcodeData.load_one_fmr_file fileBad2020 = Except.error PyError.indexError ∧
    prepareZipcodeData.load_all_fmr_files [fileGood2021, fileBad2020] =
      Except.error PyError.indexError ∧
    dataProcessor.load_one_fmr_file fileBad2020 = Except.error PyError.nameError :=
  ⟨by decide, by decide, by decide⟩

/-- C3, counterexample.  The claim says every file year `y ≤ 2014` selects
layout E in the Schema Normalizer — but the metro-level variant
(`dataProcessor.load_one_fmr_file`) has no final `else`: year 2013 selects
no layout at all and the load of a well-formed layout-E 2013 file aborts
with the `NameError` of the unassigned `use_cols`.  Moreover its rename
targets year-prefixed bedroom columns, not the canonical six. -/
theorem C3_layout_2013_counterexample :
    ¬ dataProcessor.select_layout 2013 = some Layout.E ∧
    dataProcessor.load_one_fmr_file fileE2013 = Except.error PyError.nameError ∧
    ¬ dataProcessor.renamed_header Layout.E 2014 = actual_col_names :=
  ⟨by decide, by decide, by decide⟩

/-- C3, amended.  In the zip-level normalizer (`prepareZipcodeData`) every
year `y ≤ 2014` selects layout E; the metro-level normalizer
(`dataProcessor`) selects layout E only for `y = 2014` (earlier years
select nothing).  On the year range 2014–2021 both normalizers select
exactly one layout, and they agree.  The zip-level rename always produces
exactly the six canonical columns; the metro-level rename produces six
columns headed by `ZIPCODE` followed by year-prefixed bedroom columns. -/
theorem C3_layout_selection_amended :
    (∀ y : ℕ, y ≤ 2014 → prepareZipcodeData.select_layout y = Layout.E) ∧
    dataProcessor.select_layout 2014 = some Layout.E ∧
    (∀ y : ℕ, 2014 ≤ y → y ≤ 2021 →
      dataProcessor.select_layout y = some (prepareZipcodeData.select_layout y)) ∧
    (∀ L : Layout, prepareZipcodeData.renamed_header L = actual_col_names) ∧
    (∀ L : Layout, ∀ y : ℕ, (dataProcessor.renamed_header L y).length = 6 ∧
      (dataProcessor.renamed_header L y).head? = some "ZIPCODE") := by
  refine ⟨?_, by decide, ?_, ?_, ?_⟩
  · intro y hy
    simp only [prepareZipcodeData.select_layout]
    have h1 : ¬ (2018 ≤ y ∧ y ≠ 2020) := by omega
    have h2 : y ≠ 2020 := by omega
    have h3 : ¬ (2016 ≤ y ∧ y ≤ 2017) := by omega
    have h4 : y ≠ 2015 := by omega
    rw [if_neg h1, if_neg h2, if_neg h3, if_neg h4]
  · intro y h1 h2
    interval_cases y <;> rfl
  · intro L
    cases L <;> rfl
  · intro L y
    cases L <;>
      simp [dataProcessor.renamed_header, dataProcessor.assign_col_names, use_cols,
        List.lookup]

/-- Witness for C3: the amended statement instantiated at concrete years
and layouts. -/
theorem C3_layout_selection_amended_witness :
    prepareZipcodeData.select_layout 2013 = Layout.E ∧
    dataProcessor.select_layout 2016 = some (prepareZipcodeData.select_layout 2016) ∧
    prepareZipcodeData.renamed_header Layout.A = actual_col_names ∧
    (dataProcessor.renamed_header Layout.E 2014).length = 6 :=
  ⟨C3_layout_selection_amended.1 2013 (by decide),
    C3_layout_selection_amended.2.2.1 2016 (by decide) (by decide),
    C3_layout_selection_amended.2.2.2.1 Layout.A,
    (C3_layout_selection_amended.2.2.2.2 Layout.E 2014).1⟩

namespace transformData

theorem dropna_append_dropna (x y : List (Date × Option ℚ)) :
    dropna (dropna x ++ y) = dropna (x ++ y) := by
  simp [dropna, List.filter_append, List.filter_filter]

theorem transformAux_eq (rs : List (ℤ × List (ℤ × Option ℚ)))
    (acc : List (Date × Option ℚ)) (h : rs ≠ []) :
    transformAux rs acc = dropna (acc ++ rs.flatMap pivotRow) := by
  induction rs generalizing acc with
  | nil => exact absurd rfl h
  | cons r rs ih =>
    cases rs with
    | nil => simp [transformAux]
    | cons s ss =>
      rw [show transformAux (r :: s :: ss) acc =
          transformAux (s :: ss) (dropna (acc ++ pivotRow r)) from rfl]
      rw [ih _ (by simp), dropna_append_dropna]
      simp [List.flatMap_cons, List.append_assoc]

/-- Rows of the concatenated pivot are ordered by date when the year rows
arrive in strictly ascending year order and each row's month columns are
strictly ascending. -/
theorem flatMap_pivotRow_sorted (rows : List (ℤ × List (ℤ × Option ℚ)))
    (hy : rows.Pairwise (fun a b => a.1 < b.1))
    (hm : ∀ r ∈ rows, (r.2.map Prod.fst).Pairwise (fun a b => a < b)) :
    (rows.flatMap pivotRow).Pairwise (fun p q => dateLeB p.1 q.1 = true) := by
  induction rows with
  | nil => simp
  | cons r rs ih =>
    rcases hy with _ | ⟨hr, hrs⟩
    rw [List.flatMap_cons, List.pairwise_append]
    refine ⟨?_, ih hrs (fun s hs => hm s (List.mem_cons_of_mem r hs)), ?_⟩
    · have hmr := hm r (List.mem_cons_self r rs)
      rw [pivotRow]
      rw [List.pairwise_map]
      rw [List.pairwise_map] at hmr
      refine hmr.imp ?_
      intro a b hab
      simp [dateLeB, le_of_lt hab]
    · intro a ha b hb
      rw [pivotRow, List.mem_map] at ha
      rcases ha with ⟨ma, _, rfl⟩
      rcases List.mem_flatMap.mp hb with ⟨s, hs, hbs⟩
      rcases List.mem_map.mp hbs with ⟨mb, _, rfl⟩
      have : r.1 < s.1 := hr s hs
      simp [dateLeB, this]

end transformData

/-- C5, counterexample.  The claim says every row with a missing value is
dropped (including for a single-year matrix) and the output is sorted
ascending by period.  The code only applies `.dropna()` from the second
year row onward, so a single-year matrix keeps its missing-value row; and
it never sorts, so a matrix whose year rows arrive descending yields a
descending output. -/
theorem C5_transform_cpi_counterexample :
    transformData.transform_cpi_data exC5single =
      [((2020, 1), some 5), ((2020, 3), (none : Option ℚ))] ∧
    transformData.transform_cpi_data exC5desc =
      [((2021, 1), some 7), ((2020, 1), some 5)] :=
  ⟨by decide, by decide⟩

/-- C5, amended.  For a matrix with at least two year rows the output is
exactly the concatenated per-cell rows with every missing-value row
dropped, in matrix row/column order; for a matrix with at most one year
row the missing-value rows are kept; and the output is sorted ascending by
period whenever the year rows and the month columns appear in ascending
order. -/
theorem C5_transform_cpi_amended :
    (∀ m : transformData.CpiMatrix, 2 ≤ m.rows.length →
      transformData.transform_cpi_data m =
        transformData.dropna (m.rows.flatMap transformData.pivotRow)) ∧
    (∀ m : transformData.CpiMatrix, m.rows.length ≤ 1 →
      transformData.transform_cpi_data m = m.rows.flatMap transformData.pivotRow) ∧
    (∀ m : transformData.CpiMatrix,
      m.rows.Pairwise (fun a b => a.1 < b.1) →
      (∀ r ∈ m.rows, (r.2.map Prod.fst).Pairwise (fun a b => a < b)) →
      (transformData.transform_cpi_data m).Pairwise
        (fun p q => dateLeB p.1 q.1 = true)) := by
  have key : ∀ m : transformData.CpiMatrix, 2 ≤ m.rows.length →
      transformData.transform_cpi_data m =
        transformData.dropna (m.rows.flatMap transformData.pivotRow) := by
    intro m hm
    match h : m.rows with
    | [] => rw [h] at hm; simp at hm
    | [r] => rw [h] at hm; simp at hm
    | r :: s :: ss =>
      rw [transformData.transform_cpi_data, h]
      show transformData.transformAux (s :: ss) (transformData.pivotRow r) =
        transformData.dropna ((r :: s :: ss).flatMap transformData.pivotRow)
      rw [transformData.transformAux_eq _ _ (by simp)]
      simp [List.flatMap_cons, List.append_assoc]
  refine ⟨key, ?_, ?_⟩
  · intro m hm
    match h : m.rows with
    | [] => rw [transformData.transform_cpi_data, h]; rfl
    | [r] =>
      rw [transformData.transform_cpi_data, h]
      show transformData.transformAux [] (transformData.pivotRow r) =
        [r].flatMap transformData.pivotRow
      simp [transformData.transformAux]
    | r :: s :: ss => rw [h] at hm; simp at hm
  · intro m hy hmm
    have base := transformData.flatMap_pivotRow_sorted m.rows hy hmm
    rcases Nat.lt_or_ge m.rows.length 2 with h2 | h2
    · match h : m.rows with
      | [] => rw [transformData.transform_cpi_data, h]; exact List.Pairwise.nil
      | [r] =>
        rw [transformData.transform_cpi_data, h]
        show (transformData.transformAux [] (transformData.pivotRow r)).Pairwise
          (fun p q => dateLeB p.1 q.1 = true)
        rw [h] at base
        simpa [transformData.transformAux] using base
      | r :: s :: ss => rw [h] at h2; simp at h2; omega
    · rw [key m h2]
      exact base.sublist (List.filter_sublist _)

/-- Witness for C5: the amended statement instantiated at the concrete
ascending two-year matrix `exC5asc`. -/
theorem C5_transform_cpi_amended_witness :
    transformData.transform_cpi_data exC5asc =
      transformData.dropna (exC5asc.rows.flatMap transformData.pivotRow) ∧
    (transformData.transform_cpi_data exC5asc).Pairwise
      (fun p q => dateLeB p.1 q.1 = true) :=
  ⟨C5_transform_cpi_amended.1 exC5asc (by decide),
    C5_transform_cpi_amended.2.2 exC5asc (by decide) (by decide)⟩

/-- C6.  For every row of a successful `smooth_and_merge` result, the
columns are exactly Efficiency, One-Bedroom, Two-Bedroom, Three-Bedroom,
Four-Bedroom, Mean_Rent, CPI in that order, and whenever the row carries a
present CPI value the `Mean_Rent` entry is the arithmetic mean of the six
values — the five rent sizes *and* the joined CPI, deliberately included. -/
theorem C6_mean_rent_includes_cpi :
    ∀ (cpi : List (Date × Option ℚ)) (fmr : List transformData.FmrRow) (m : ℤ)
      (out : List (List (String × Option ℚ))),
      transformData.smooth_and_merge cpi fmr m = Except.ok out →
      ∀ row ∈ out,
        row.map Prod.fst = smoothMergeCols ∧
        ∀ e o tw th fo c : ℚ,
          row.lookup "Efficiency" = some (some e) →
          row.lookup "One-Bedroom" = some (some o) →
          row.lookup "Two-Bedroom" = some (some tw) →
          row.lookup "Three-Bedroom" = some (some th) →
          row.lookup "Four-Bedroom" = some (some fo) →
          row.lookup "CPI" = some (some c) →
          row.lookup "Mean_Rent" = some (some ((e + o + tw + th + fo + c) / 6)) := by
  intro cpi fmr m out hout row hrow
  rw [transformData.smooth_and_merge] at hout
  by_cases hm : 1 ≤ m ∧ m ≤ 12
  · rw [if_pos hm] at hout
    have hout2 := Except.ok.inj hout
    subst hout2
    rcases List.mem_flatMap.mp hrow with ⟨r, _, hrow2⟩
    rcases List.mem_map.mp hrow2 with ⟨b, _, hb⟩
    subst hb
    constructor
    · rfl
    · intro e o tw th fo c he ho htw hth hfo hc
      simp [transformData.out_row, List.lookup] at he ho htw hth hfo hc ⊢
      subst he; subst ho; subst htw; subst hth; subst hfo
      rw [hc, transformData.mean_rent]
      simp [qmean]
      ring
  · rw [if_neg hm] at hout
    exact absurd hout (by simp)

/-- Witness for C6: on the concrete one-row merge the columns come out in
the fixed order and `Mean_Rent = (1+2+3+4+5+8)/6`, the CPI value 8 being
averaged in. -/
theorem C6_mean_rent_includes_cpi_witness :
    exC6row.map Prod.fst = smoothMergeCols ∧
    exC6row.lookup "Mean_Rent" = some (some ((1 + 2 + 3 + 4 + 5 + 8 : ℚ) / 6)) := by
  have h := C6_mean_rent_includes_cpi exC6cpi exC6fmr 10 [exC6row] (by decide)
    exC6row (by decide)
  exact ⟨h.1, h.2 1 2 3 4 5 8 (by decide) (by decide) (by decide) (by decide)
    (by decide) (by decide)⟩

namespace prepareZipcodeData

theorem year_file_pairs_sound (files : List RawFile) (ps : List (ℕ × RawFile))
    (h : year_file_pairs files = Except.ok ps) :
    (∀ p ∈ ps, p.2 ∈ files ∧ extractYear p.2.name = some p.1) ∧
    (∀ g ∈ files, ∃ y, (y, g) ∈ ps) := by
  induction files generalizing ps with
  | nil =>
    rw [year_file_pairs] at h
    cases h
    simp
  | cons f fs ih =>
    rw [year_file_pairs] at h
    cases hy : extractYear f.name with
    | none => rw [hy] at h; cases h
    | some y =>
      rw [hy] at h
      cases hps : year_file_pairs fs with
      | error e => rw [hps] at h; cases h
      | ok ps2 =>
        rw [hps] at h
        cases h
        rcases ih ps2 hps with ⟨h1, h2⟩
        constructor
        · intro p hp
          rcases List.mem_cons.mp hp with hpf | hp
          · rw [hpf]; exact ⟨List.mem_cons_self f fs, hy⟩
          · rcases h1 p hp with ⟨hm, he⟩
            exact ⟨List.mem_cons_of_mem f hm, he⟩
        · intro g hg
          rcases List.mem_cons.mp hg with hgf | hg
          · exact ⟨y, by rw [hgf]; exact List.mem_cons_self _ _⟩
          · rcases h2 g hg with ⟨z, hz⟩
            exact ⟨z, List.mem_cons_of_mem _ hz⟩

theorem foldl_max_init_le (ps : List (ℕ × RawFile)) (m : ℕ) :
    m ≤ ps.foldl (fun m q => max m q.1) m := by
  induction ps generalizing m with
  | nil => exact Nat.le_refl m
  | cons q qs ih =>
    exact le_trans (Nat.le_max_left m q.1) (ih (max m q.1))

theorem foldl_max_le (ps : List (ℕ × RawFile)) (m : ℕ) (p : ℕ × RawFile)
    (hp : p ∈ ps) : p.1 ≤ ps.foldl (fun m q => max m q.1) m := by
  induction ps generalizing m with
  | nil => cases hp
  | cons q qs ih =>
    rcases List.mem_cons.mp hp with hpq | hp
    · rw [hpq]
      exact le_trans (Nat.le_max_right m q.1) (foldl_max_init_le qs (max m q.1))
    · exact ih (max m q.1) hp

theorem getLast?_mem {α : Type} (l : List α) (a : α) (h : l.getLast? = some a) :
    a ∈ l := by
  induction l with
  | nil => cases h
  | cons x xs ih =>
    cases xs with
    | nil =>
      cases h
      exact List.mem_cons_self _ _
    | cons y ys =>
      rw [List.getLast?_cons_cons] at h
      exact List.mem_cons_of_mem x (ih h)

theorem select_max_year_file_sound (files : List RawFile) (f : RawFile)
    (h : select_max_year_file files = Except.ok f) :
    f ∈ files ∧ ∃ y, extractYear f.name = some y ∧
      ∀ g ∈ files, ∀ z, extractYear g.name = some z → z ≤ y := by
  rw [select_max_year_file] at h
  split at h
  · cases h
  · rename_i ps hps
    split at h
    · rename_i f2 hl
      cases h
      rcases year_file_pairs_sound files ps hps with ⟨h1, h2⟩
      rw [map_year_lookup] at hl
      have hmem := getLast?_mem _ _ hl
      rcases List.mem_map.mp hmem with ⟨p, hpfilter, hp2⟩
      have hpmem := List.mem_of_mem_filter hpfilter
      have hpy : p.1 = max_year ps := by
        have := List.of_mem_filter hpfilter
        exact eq_of_beq this
      rcases h1 p hpmem with ⟨hfmem, hfyear⟩
      refine ⟨hp2 ▸ hfmem, max_year ps, by rw [← hp2, hfyear, hpy], ?_⟩
      intro g hg z hz
      rcases h2 g hg with ⟨y, hy⟩
      have hgy : extractYear g.name = some y := (h1 _ hy).2
      have hzy : z = y := by rw [hz] at hgy; exact Option.some.inj hgy
      rw [hzy]
      exact foldl_max_le ps 0 (y, g) hy
    · cases h

theorem lookup_filter_of_nodup (codes : List (String × String)) (z : String)
    (h : (codes.map Prod.fst).Nodup) :
    codes.filter (fun c => c.1 == z) =
      ((codes.lookup z).map (fun v => (z, v))).toList := by
  induction codes with
  | nil => rfl
  | cons c rest ih =>
    obtain ⟨a, b⟩ := c
    rcases List.nodup_cons.mp h with ⟨hk, hrest⟩
    by_cases hc : a = z
    · subst hc
      have hfilter : rest.filter (fun d => d.1 == a) = [] := by
        rw [List.filter_eq_nil_iff]
        intro d hd
        simp only [beq_iff_eq]
        intro hdz
        have hmm : d.1 ∈ List.map Prod.fst rest := List.mem_map_of_mem Prod.fst hd
        rw [hdz] at hmm
        exact hk hmm
      rw [List.filter_cons, if_pos (by simp), hfilter]
      simp [List.lookup]
    · have hbeq : (z == a) = false := by
        simp only [beq_eq_false_iff_ne, ne_eq]
        exact fun e => hc e.symm
      have hlook : List.lookup z ((a, b) :: rest) = List.lookup z rest := by
        simp [List.lookup, hbeq]
      rw [hlook, List.filter_cons, if_neg (by simp [hc]), ih hrest]

theorem flatMap_singleton {α β : Type} (f : α → List β) (g : α → β) (l : List α)
    (h : ∀ a ∈ l, f a = [g a]) : l.flatMap f = l.map g := by
  induction l with
  | nil => rfl
  | cons a as ih =>
    rw [List.flatMap_cons, List.map_cons, h a (List.mem_cons_self a as),
      ih (fun b hb => h b (List.mem_cons_of_mem a hb))]
    rfl

theorem left_join_codes_of_nodup (corpus : List DRow)
    (codes : List (String × String)) (h : (codes.map Prod.fst).Nodup) :
    left_join_codes corpus codes = corpus.map (fun r =>
      CRow.mk r.zipcode r.b0 r.b1 r.b2 r.b3 r.b4 r.date (codes.lookup r.zipcode)) := by
  refine flatMap_singleton _ _ _ ?_
  intro r _
  show (let ms := codes.filter (fun c => c.1 == r.zipcode)
    if ms.isEmpty then [CRow.mk r.zipcode r.b0 r.b1 r.b2 r.b3 r.b4 r.date none]
    else ms.map (fun c => CRow.mk r.zipcode r.b0 r.b1 r.b2 r.b3 r.b4 r.date (some c.2))) =
    [CRow.mk r.zipcode r.b0 r.b1 r.b2 r.b3 r.b4 r.date (codes.lookup r.zipcode)]
  rw [show codes.filter (fun c => c.1 == r.zipcode) = _ from
    lookup_filter_of_nodup codes r.zipcode h]
  cases codes.lookup r.zipcode with
  | none => rfl
  | some v => rfl

end prepareZipcodeData

/-- C4, counterexample.  The claim asserts the left join attaches exactly
one area code per entity and preserves exactly one corpus row per
`(entity_id, period)`.  With a most-recent file whose raw mapping lists
one zipcode under two area codes, the left merge duplicates the corpus
row: the single `(10001, 2021-10)` row comes back twice, once per code. -/
theorem C4_duplicate_mapping_counterexample :
    prepareZipcodeData.merge_area_code_zipcode exC4corpus [fileCodesDup] =
      Except.ok exC4out ∧
    ¬ (exC4out.map (fun r => (r.zipcode, r.date))).Nodup ∧
    exC4out.map (fun r => r.metro_codes) = [some "METRO1", some "METRO2"] :=
  ⟨by decide, by decide, by decide⟩

/-- C4, amended.  The mapper takes its mapping from a maximum-year file of
the directory (the selected file carries the maximum extracted year), and
*provided the mapping file lists each identifier at most once*, the left
join attaches exactly one optional area code per corpus row — the mapping
lookup of its identifier, null when absent, which is not an error — and
preserves exactly one corpus row per `(entity_id, period)`; a duplicated
identifier in the mapping duplicates the matching corpus rows instead. -/
theorem C4_metro_code_mapper_amended :
    (∀ (files : List RawFile) (f : RawFile),
      prepareZipcodeData.select_max_year_file files = Except.ok f →
      f ∈ files ∧ ∃ y, extractYear f.name = some y ∧
        ∀ g ∈ files, ∀ z, extractYear g.name = some z → z ≤ y) ∧
    (∀ (corpus : List prepareZipcodeData.DRow) (codes : List (String × String)),
      (codes.map Prod.fst).Nodup →
      prepareZipcodeData.left_join_codes corpus codes = corpus.map (fun r =>
        prepareZipcodeData.CRow.mk r.zipcode r.b0 r.b1 r.b2 r.b3 r.b4 r.date
          (codes.lookup r.zipcode))) ∧
    (∀ (corpus : List prepareZipcodeData.DRow) (codes : List (String × String)),
      (codes.map Prod.fst).Nodup →
      (corpus.map (fun r => (r.zipcode, r.date))).Nodup →
      ((prepareZipcodeData.left_join_codes corpus codes).map
        (fun r => (r.zipcode, r.date))).Nodup) := by
  refine ⟨prepareZipcodeData.select_max_year_file_sound,
    prepareZipcodeData.left_join_codes_of_nodup, ?_⟩
  intro corpus codes hc hkeys
  rw [prepareZipcodeData.left_join_codes_of_nodup corpus codes hc, List.map_map]
  exact hkeys

/-- Witness for C4: the amended statement instantiated at a concrete
directory and a concrete duplicate-free mapping. -/
theorem C4_metro_code_mapper_amended_witness :
    fileGood2021 ∈ [fileGood2021] ∧
    prepareZipcodeData.left_join_codes exC4corpus [("10001", "M1"), ("99999", "M2")] =
      exC4corpus.map (fun r =>
        prepareZipcodeData.CRow.mk r.zipcode r.b0 r.b1 r.b2 r.b3 r.b4 r.date
          (List.lookup r.zipcode [("10001", "M1"), ("99999", "M2")])) :=
  ⟨(C4_metro_code_mapper_amended.1 [fileGood2021] fileGood2021 (by decide)).1,
    C4_metro_code_mapper_amended.2.1 exC4corpus [("10001", "M1"), ("99999", "M2")]
      (by decide)⟩

theorem rowsWith_append (l1 l2 : List NRow) (z : String) :
    rowsWith (l1 ++ l2) z = rowsWith l1 z ++ rowsWith l2 z := by
  simp [rowsWith]

theorem count_keysOf (rows : List NRow) (k : String) :
    (keysOf rows).count k = (rowsWith rows k).length := by
  induction rows with
  | nil => rfl
  | cons r rest ih =>
    by_cases hr : r.zipcode = k
    · simp [keysOf, rowsWith, List.count_cons, List.filter_cons, hr] at ih ⊢
      omega
    · simp [keysOf, rowsWith, List.count_cons, List.filter_cons, hr] at ih ⊢
      exact ih

theorem mem_keysOf_iff (rows : List NRow) (k : String) :
    k ∈ keysOf rows ↔ rowsWith rows k ≠ [] := by
  constructor
  · intro h
    rcases List.mem_map.mp h with ⟨r, hr, hrk⟩
    intro hnil
    have : r ∈ rowsWith rows k := by
      rw [rowsWith, List.mem_filter]
      exact ⟨hr, by simp [hrk]⟩
    rw [hnil] at this
    cases this
  · intro h
    rcases List.exists_mem_of_ne_nil _ h with ⟨r, hr⟩
    rw [rowsWith, List.mem_filter] at hr
    have : r.zipcode = k := by simpa using hr.2
    exact this ▸ List.mem_map_of_mem _ hr.1

theorem dup_zips_nodup (rows : List NRow) : (dup_zips rows).Nodup :=
  ((sortLe_perm _ _).nodup_iff).mpr
    ((nodup_firstSeen (rows.map (fun r => r.zipcode))).filter _)

theorem mem_dup_zips (rows : List NRow) (z : String) :
    z ∈ dup_zips rows ↔ 1 < (rowsWith rows z).length := by
  rw [dup_zips, mem_sortLe, List.mem_filter]
  constructor
  · intro h
    simpa using h.2
  · intro h
    refine ⟨?_, by simpa using h⟩
    rw [mem_firstSeen]
    have : rowsWith rows z ≠ [] := by
      intro hnil
      rw [hnil] at h
      simp at h
    exact (mem_keysOf_iff rows z).mpr this

theorem rowsWith_dedupStep_other (M : List NRow → String → NRow) (acc : List NRow)
    (z w : String) (hw : ¬ w = z) (hkey : ∀ a c, (M a c).zipcode = c) :
    rowsWith (dedupStep M acc z) w = rowsWith acc w := by
  rw [dedupStep, rowsWith_append]
  have h1 : rowsWith (acc.filter (fun r => ¬ r.zipcode == z)) w = rowsWith acc w := by
    rw [rowsWith, rowsWith, List.filter_filter]
    congr 1
    funext r
    by_cases hr : r.zipcode = w
    · simp [hr, hw]
    · simp [hr]
  have h2 : rowsWith [M acc z] w = [] := by
    simp only [rowsWith, List.filter_cons, List.filter_nil, hkey acc z]
    rw [if_neg ?_]
    simp only [beq_iff_eq, decide_eq_true_eq]
    exact fun e => hw e.symm
  rw [h1, h2, List.append_nil]

theorem dedupFold_eq (M : List NRow → String → NRow)
    (hkey : ∀ a c, (M a c).zipcode = c)
    (hmr : ∀ a b c, rowsWith a c = rowsWith b c → M a c = M b c)
    (rows : List NRow) (zs : List String) (hnd : zs.Nodup) :
    dedupFold M rows zs =
      rows.filter (fun r => decide (¬ r.zipcode ∈ zs)) ++ zs.map (M rows) := by
  induction zs generalizing rows with
  | nil =>
    simp [dedupFold]
  | cons z zs ih =>
    rcases List.nodup_cons.mp hnd with ⟨hz, hzs⟩
    have step : dedupFold M rows (z :: zs) = dedupFold M (dedupStep M rows z) zs := rfl
    rw [step, ih (dedupStep M rows z) hzs]
    have hfilter : (dedupStep M rows z).filter (fun r => decide (¬ r.zipcode ∈ zs)) =
        rows.filter (fun r => decide (¬ r.zipcode ∈ z :: zs)) ++ [M rows z] := by
      rw [dedupStep, List.filter_append, List.filter_filter]
      have hpred : (fun (r : NRow) => decide (¬ r.zipcode ∈ zs) && ¬ r.zipcode == z) =
          (fun (r : NRow) => decide (¬ r.zipcode ∈ z :: zs)) := by
        funext r
        by_cases h1 : r.zipcode = z <;> by_cases h2 : r.zipcode ∈ zs <;>
          simp [h1, h2]
      rw [hpred]
      have hmz : [M rows z].filter (fun r => decide (¬ r.zipcode ∈ zs)) = [M rows z] := by
        rw [List.filter_cons, if_pos (by simp [hkey rows z, hz])]
        rfl
      rw [hmz]
    have hmap : zs.map (M (dedupStep M rows z)) = zs.map (M rows) := by
      refine List.map_congr_left ?_
      intro w hw
      have hwz : ¬ w = z := fun e => hz (e ▸ hw)
      exact hmr _ _ _ (rowsWith_dedupStep_other M rows z w hwz hkey)
    rw [hfilter, hmap, List.append_assoc]
    rfl

theorem rowsWith_map_mem (M : List NRow → String → NRow)
    (hkey : ∀ a c, (M a c).zipcode = c) (rows : List NRow) (D : List String)
    (hD : D.Nodup) (z : String) (hz : z ∈ D) :
    (D.map (M rows)).filter (fun r => r.zipcode == z) = [M rows z] := by
  induction D with
  | nil => cases hz
  | cons w ws ih =>
    rcases List.nodup_cons.mp hD with ⟨hw, hws⟩
    rcases List.mem_cons.mp hz with hzw | hzw
    · rw [List.map_cons, List.filter_cons, if_pos (by simp [hkey rows w, hzw])]
      have hrest : (ws.map (M rows)).filter (fun r => r.zipcode == z) = [] := by
        rw [List.filter_eq_nil_iff]
        intro r hr
        rcases List.mem_map.mp hr with ⟨v, hv, hvr⟩
        have hrv : r.zipcode = v := hvr ▸ hkey rows v
        simp only [hrv, beq_iff_eq, decide_eq_true_eq]
        intro hvz
        exact hw (hzw ▸ hvz ▸ hv)
      rw [hrest, hzw]
    · rw [List.map_cons, List.filter_cons, if_neg ?_]
      · exact ih hws hzw
      · simp only [hkey rows w, beq_iff_eq, decide_eq_true_eq]
        intro hwz
        exact hw (hwz ▸ hzw)

theorem rowsWith_map_not_mem (M : List NRow → String → NRow)
    (hkey : ∀ a c, (M a c).zipcode = c) (rows : List NRow) (D : List String)
    (z : String) (hz : ¬ z ∈ D) :
    (D.map (M rows)).filter (fun r => r.zipcode == z) = [] := by
  rw [List.filter_eq_nil_iff]
  intro r hr
  rcases List.mem_map.mp hr with ⟨v, hv, hvr⟩
  have hrv : r.zipcode = v := hvr ▸ hkey rows v
  simp only [hrv, beq_iff_eq, decide_eq_true_eq]
  intro hvz
  exact hz (hvz ▸ hv)

theorem rowsWith_dedupFold_char (M : List NRow → String → NRow)
    (hkey : ∀ a c, (M a c).zipcode = c)
    (hmr : ∀ a b c, rowsWith a c = rowsWith b c → M a c = M b c)
    (rows : List NRow) (z : String) :
    rowsWith (dedupFold M rows (dup_zips rows)) z =
      if 1 < (rowsWith rows z).length then [M rows z] else rowsWith rows z := by
  rw [dedupFold_eq M hkey hmr rows _ (dup_zips_nodup rows), rowsWith_append]
  by_cases hz : 1 < (rowsWith rows z).length
  · rw [if_pos hz]
    have h1 : rowsWith (rows.filter (fun r => decide (¬ r.zipcode ∈ dup_zips rows))) z
        = [] := by
      rw [rowsWith, List.filter_filter, List.filter_eq_nil_iff]
      intro r _
      by_cases hr : r.zipcode = z
      · simp [hr, (mem_dup_zips rows z).mpr hz]
      · simp [hr]
    have h2 := rowsWith_map_mem M hkey rows (dup_zips rows) (dup_zips_nodup rows) z
      ((mem_dup_zips rows z).mpr hz)
    rw [h1]
    rw [show rowsWith ((dup_zips rows).map (M rows)) z =
      ((dup_zips rows).map (M rows)).filter (fun r => r.zipcode == z) from rfl]
    rw [h2, List.nil_append]
  · rw [if_neg hz]
    have h1 : rowsWith (rows.filter (fun r => decide (¬ r.zipcode ∈ dup_zips rows))) z
        = rowsWith rows z := by
      rw [rowsWith, rowsWith, List.filter_filter]
      congr 1
      funext r
      by_cases hr : r.zipcode = z
      · have hznd : ¬ z ∈ dup_zips rows := fun h => hz ((mem_dup_zips rows z).mp h)
        simp [hr, hznd]
      · simp [hr]
    have h2 := rowsWith_map_not_mem M hkey rows (dup_zips rows) z
      (fun h => hz ((mem_dup_zips rows z).mp h))
    rw [h1]
    rw [show rowsWith ((dup_zips rows).map (M rows)) z =
      ((dup_zips rows).map (M rows)).filter (fun r => r.zipcode == z) from rfl]
    rw [h2, List.append_nil]

theorem keysOf_dedupFold_nodup (M : List NRow → String → NRow)
    (hkey : ∀ a c, (M a c).zipcode = c)
    (hmr : ∀ a b c, rowsWith a c = rowsWith b c → M a c = M b c)
    (rows : List NRow) : (keysOf (dedupFold M rows (dup_zips rows))).Nodup := by
  rw [List.nodup_iff_count_le_one]
  intro k
  rw [count_keysOf, rowsWith_dedupFold_char M hkey hmr rows k]
  by_cases hk : 1 < (rowsWith rows k).length
  · rw [if_pos hk]; exact Nat.le_refl 1
  · rw [if_neg hk]; omega

theorem mem_keysOf_dedupFold (M : List NRow → String → NRow)
    (hkey : ∀ a c, (M a c).zipcode = c)
    (hmr : ∀ a b c, rowsWith a c = rowsWith b c → M a c = M b c)
    (rows : List NRow) (z : String) :
    z ∈ keysOf (dedupFold M rows (dup_zips rows)) ↔ z ∈ keysOf rows := by
  rw [mem_keysOf_iff, mem_keysOf_iff, rowsWith_dedupFold_char M hkey hmr rows z]
  by_cases hz : 1 < (rowsWith rows z).length
  · rw [if_pos hz]
    constructor
    · intro _
      intro hnil
      rw [hnil] at hz
      simp at hz
    · intro _
      simp
  · rw [if_neg hz]

theorem mem_dedupFold_of_single (M : List NRow → String → NRow)
    (hkey : ∀ a c, (M a c).zipcode = c)
    (hmr : ∀ a b c, rowsWith a c = rowsWith b c → M a c = M b c)
    (rows : List NRow) (r : NRow) (hr : r ∈ rows)
    (h1 : (rowsWith rows r.zipcode).length = 1) :
    r ∈ dedupFold M rows (dup_zips rows) := by
  have hmemw : r ∈ rowsWith (dedupFold M rows (dup_zips rows)) r.zipcode := by
    rw [rowsWith_dedupFold_char M hkey hmr rows r.zipcode, if_neg (by omega)]
    rw [rowsWith, List.mem_filter]
    exact ⟨hr, by simp⟩
  exact List.mem_of_mem_filter hmemw

theorem mean_row_zip_key : ∀ (a : List NRow) (c : String),
    (prepareZipcodeData.mean_row a c).zipcode = c := fun _ _ => rfl

theorem mean_row_zip_congr : ∀ (a b : List NRow) (c : String),
    rowsWith a c = rowsWith b c →
    prepareZipcodeData.mean_row a c = prepareZipcodeData.mean_row b c := by
  intro a b c h
  simp [prepareZipcodeData.mean_row, h]

theorem mean_row_metro_key : ∀ (a : List NRow) (c : String),
    (dataProcessor.mean_row a c).zipcode = c := fun _ _ => rfl

theorem mean_row_metro_congr : ∀ (a b : List NRow) (c : String),
    rowsWith a c = rowsWith b c →
    dataProcessor.mean_row a c = dataProcessor.mean_row b c := by
  intro a b c h
  simp [dataProcessor.mean_row, h]

/-- C8.  Entity deduplication: in both pipeline variants the output holds
exactly one row per distinct entity key (`Nodup` keys, key set preserved);
a key with more than one row is replaced by the single synthesized row
whose numeric fields are, in the zip-level variant, the *ceiling* of the
group's arithmetic means and, in the metro-level variant, the unrounded
means; a key with exactly one row passes through unchanged; and on the
concrete group [10, 12, 14] the ceiling variant synthesizes
`ceil(12) = 12`. -/
theorem C8_entity_deduplicator :
    (∀ (rows : List NRow) (z : String),
      rowsWith (prepareZipcodeData.common_zipcode_mean rows) z =
        if 1 < (rowsWith rows z).length then
          [⟨z, ((⌈qmean ((rowsWith rows z).map (fun r => r.b0))⌉ : ℤ) : ℚ),
            ((⌈qmean ((rowsWith rows z).map (fun r => r.b1))⌉ : ℤ) : ℚ),
            ((⌈qmean ((rowsWith rows z).map (fun r => r.b2))⌉ : ℤ) : ℚ),
            ((⌈qmean ((rowsWith rows z).map (fun r => r.b3))⌉ : ℤ) : ℚ),
            ((⌈qmean ((rowsWith rows z).map (fun r => r.b4))⌉ : ℤ) : ℚ)⟩]
        else rowsWith rows z) ∧
    (∀ rows : List NRow, (keysOf (prepareZipcodeData.common_zipcode_mean rows)).Nodup) ∧
    (∀ (rows : List NRow) (z : String),
      z ∈ keysOf (prepareZipcodeData.common_zipcode_mean rows) ↔ z ∈ keysOf rows) ∧
    (∀ (rows : List NRow) (r : NRow), r ∈ rows →
      (rowsWith rows r.zipcode).length = 1 →
      r ∈ prepareZipcodeData.common_zipcode_mean rows) ∧
    (∀ (rows : List NRow) (z : String),
      rowsWith (dataProcessor.common_zipcode_mean rows) z =
        if 1 < (rowsWith rows z).length then
          [⟨z, qmean ((rowsWith rows z).map (fun r => r.b0)),
            qmean ((rowsWith rows z).map (fun r => r.b1)),
            qmean ((rowsWith rows z).map (fun r => r.b2)),
            qmean ((rowsWith rows z).map (fun r => r.b3)),
            qmean ((rowsWith rows z).map (fun r => r.b4))⟩]
        else rowsWith rows z) ∧
    (∀ rows : List NRow, (keysOf (dataProcessor.common_zipcode_mean rows)).Nodup) ∧
    (∀ (rows : List NRow) (r : NRow), r ∈ rows →
      (rowsWith rows r.zipcode).length = 1 →
      r ∈ dataProcessor.common_zipcode_mean rows) ∧
    prepareZipcodeData.common_zipcode_mean exC8 = [⟨"Z", 12, 12, 12, 12, 12⟩] := by
  refine ⟨?_, ?_, ?_, ?_, ?_, ?_, ?_, by decide⟩
  · intro rows z
    rw [show prepareZipcodeData.common_zipcode_mean rows =
      dedupFold prepareZipcodeData.mean_row rows (dup_zips rows) from rfl]
    rw [rowsWith_dedupFold_char _ mean_row_zip_key mean_row_zip_congr rows z]
    rfl
  · intro rows
    exact keysOf_dedupFold_nodup _ mean_row_zip_key mean_row_zip_congr rows
  · intro rows z
    exact mem_keysOf_dedupFold _ mean_row_zip_key mean_row_zip_congr rows z
  · intro rows r hr h1
    exact mem_dedupFold_of_single _ mean_row_zip_key mean_row_zip_congr rows r hr h1
  · intro rows z
    rw [show dataProcessor.common_zipcode_mean rows =
      dedupFold dataProcessor.mean_row rows (dup_zips rows) from rfl]
    rw [rowsWith_dedupFold_char _ mean_row_metro_key mean_row_metro_congr rows z]
    rfl
  · intro rows
    exact keysOf_dedupFold_nodup _ mean_row_metro_key mean_row_metro_congr rows
  · intro rows r hr h1
    exact mem_dedupFold_of_single _ mean_row_metro_key mean_row_metro_congr rows r hr h1

/-- Witness for C8: a single-row entity passes through both deduplication
variants unchanged. -/
theorem C8_entity_deduplicator_witness :
    (⟨"W", 5, 6, 7, 8, 9⟩ : NRow) ∈
      prepareZipcodeData.common_zipcode_mean [⟨"W", 5, 6, 7, 8, 9⟩] ∧
    (⟨"W", 5, 6, 7, 8, 9⟩ : NRow) ∈
      dataProcessor.common_zipcode_mean [⟨"W", 5, 6, 7, 8, 9⟩] :=
  ⟨C8_entity_deduplicator.2.2.2.1 [⟨"W", 5, 6, 7, 8, 9⟩] ⟨"W", 5, 6, 7, 8, 9⟩
      (by decide) (by decide),
    C8_entity_deduplicator.2.2.2.2.2.2.1 [⟨"W", 5, 6, 7, 8, 9⟩] ⟨"W", 5, 6, 7, 8, 9⟩
      (by decide) (by decide)⟩

theorem filter_beq_of_nodup_keys (keys : List String) (h : keys.Nodup) (z : String) :
    keys.filter (fun k => k == z) = if z ∈ keys then [z] else [] := by
  induction keys with
  | nil => simp
  | cons k ks ih =>
    rcases List.nodup_cons.mp h with ⟨hk, hks⟩
    by_cases hkz : k = z
    · subst hkz
      rw [List.filter_cons, if_pos (by simp)]
      have : ks.filter (fun w => w == k) = [] := by
        rw [List.filter_eq_nil_iff]
        intro w hw
        simp only [beq_iff_eq, decide_eq_true_eq]
        intro hwk
        exact hk (hwk ▸ hw)
      rw [this, if_pos (List.mem_cons_self k ks)]
    · rw [List.filter_cons, if_neg (by simp [hkz]), ih hks]
      by_cases hz : z ∈ ks
      · rw [if_pos hz, if_pos (List.mem_cons_of_mem k hz)]
      · rw [if_neg hz, if_neg (by
          intro hzc
          rcases List.mem_cons.mp hzc with he | he
          · exact hkz he.symm
          · exact hz he)]

namespace prepareZipcodeData

theorem inner_zip_eq (dz keys : List String) (hk : keys.Nodup) :
    inner_zip dz keys = dz.filter (fun z => decide (z ∈ keys)) := by
  rw [inner_zip]
  induction dz with
  | nil => rfl
  | cons z dz ih =>
    rw [List.flatMap_cons, ih, filter_beq_of_nodup_keys keys hk z, List.filter_cons]
    by_cases hz : z ∈ keys
    · rw [if_pos hz, if_pos (by simp [hz])]
      rfl
    · rw [if_neg hz, if_neg (by simp [hz])]
      rfl

theorem inner_merge_rows_eq (df : List DRow) (dz : List String) (hk : dz.Nodup) :
    inner_merge_rows df dz = df.filter (fun r => decide (r.zipcode ∈ dz)) := by
  rw [inner_merge_rows]
  induction df with
  | nil => rfl
  | cons r df ih =>
    rw [List.flatMap_cons, ih, filter_beq_of_nodup_keys dz hk r.zipcode, List.filter_cons]
    by_cases hz : r.zipcode ∈ dz
    · rw [if_pos hz, if_pos (by simp [hz])]
      rfl
    · rw [if_neg hz, if_neg (by simp [hz])]
      rfl

theorem assembleState_fold_aux (files : List RawFile) (tables : List (List DRow))
    (st : List DRow × List String)
    (h : files.map load_one_fmr_file = tables.map Except.ok) :
    files.foldlM
      (fun (st : List DRow × List String) f =>
        if st.1.length = 0 then do
          let d ← load_one_fmr_file f
          pure (d, d.map (fun r => r.zipcode))
        else do
          let data ← load_one_fmr_file f
          pure (st.1 ++ data, inner_zip st.2 (data.map (fun r => r.zipcode)))) st =
    Except.ok (tables.foldl
      (fun st t =>
        if st.1.length = 0 then (t, dkeys t)
        else (st.1 ++ t, inner_zip st.2 (dkeys t))) st) := by
  induction files generalizing tables st with
  | nil =>
    cases tables with
    | nil => rfl
    | cons t ts => simp at h
  | cons f fs ih =>
    cases tables with
    | nil => simp at h
    | cons t ts =>
      simp only [List.map_cons, List.cons.injEq] at h
      rcases h with ⟨hf, hfs⟩
      rw [List.foldlM_cons, List.foldl_cons]
      by_cases h0 : st.1.length = 0
      · rw [if_pos h0, if_pos h0, hf]
        exact ih ts _ hfs
      · rw [if_neg h0, if_neg h0, hf]
        exact ih ts _ hfs

theorem assembleState_eq (files : List RawFile) (tables : List (List DRow))
    (h : files.map load_one_fmr_file = tables.map Except.ok) :
    assembleState files = Except.ok (stackStatePure tables) :=
  assembleState_fold_aux files tables ([], []) h

theorem stack_fold_from (ts : List (List DRow)) (st : List DRow × List String)
    (hst1 : st.1 ≠ []) (hstnd : st.2.Nodup)
    (hnd : ∀ t ∈ ts, (dkeys t).Nodup) :
    (ts.foldl
      (fun st t =>
        if st.1.length = 0 then (t, dkeys t)
        else (st.1 ++ t, inner_zip st.2 (dkeys t))) st).1 = st.1 ++ ts.flatten ∧
    (ts.foldl
      (fun st t =>
        if st.1.length = 0 then (t, dkeys t)
        else (st.1 ++ t, inner_zip st.2 (dkeys t))) st).2.Nodup ∧
    (∀ z, z ∈ (ts.foldl
      (fun st t =>
        if st.1.length = 0 then (t, dkeys t)
        else (st.1 ++ t, inner_zip st.2 (dkeys t))) st).2 ↔
      z ∈ st.2 ∧ ∀ t ∈ ts, z ∈ dkeys t) := by
  induction ts generalizing st with
  | nil =>
    refine ⟨by simp, hstnd, ?_⟩
    intro z
    simp
  | cons t ts ih =>
    have h0 : ¬ st.1.length = 0 := by
      intro h
      exact hst1 (List.eq_nil_of_length_eq_zero h)
    rw [List.foldl_cons, if_neg h0]
    have hknd : (dkeys t).Nodup := hnd t (List.mem_cons_self t ts)
    have hiz := inner_zip_eq st.2 (dkeys t) hknd
    have hstnd2 : (inner_zip st.2 (dkeys t)).Nodup := by
      rw [hiz]; exact hstnd.filter _
    have hne2 : (st.1 ++ t : List DRow) ≠ [] := by
      intro h
      rcases List.append_eq_nil.mp h with ⟨h1, _⟩
      exact hst1 h1
    rcases ih (st.1 ++ t, inner_zip st.2 (dkeys t)) hne2 hstnd2
      (fun u hu => hnd u (List.mem_cons_of_mem t hu)) with ⟨ih1, ih2, ih3⟩
    refine ⟨by rw [ih1]; simp [List.append_assoc], ih2, ?_⟩
    intro z
    rw [ih3]
    simp only [hiz, List.mem_filter, decide_eq_true_eq, List.forall_mem_cons]
    tauto

theorem drowLe_total (a b : DRow) : drowLe a b ∨ drowLe b a := by
  rw [drowLe, drowLe]
  rcases lt_trichotomy a.date.1 b.date.1 with h | h | h
  · left; simp [h]
  · rcases lt_trichotomy a.date.2 b.date.2 with h2 | h2 | h2
    · left; simp [h, h2]
    · rcases strLe_total a.zipcode b.zipcode with h3 | h3
      · left; simp [h, h2, h3]
      · right; simp [h.symm, h2.symm, h3]
    · right; simp [h.symm, h2]
  · right; simp [h]

theorem drowLe_trans (a b c : DRow) (hab : drowLe a b) (hbc : drowLe b c) :
    drowLe a c = true := by
  rw [drowLe] at hab hbc ⊢
  simp only [Bool.or_eq_true, Bool.and_eq_true, decide_eq_true_eq] at hab hbc ⊢
  rcases hab with h1 | ⟨h1, h2⟩
  · rcases hbc with g1 | ⟨g1, g2⟩
    · left; omega
    · left; omega
  · rcases hbc with g1 | ⟨g1, g2⟩
    · left; omega
    · right
      refine ⟨by omega, ?_⟩
      rcases h2 with h2 | ⟨h2, h3⟩
      · rcases g2 with g2 | ⟨g2, g3⟩
        · left; omega
        · left; omega
      · rcases g2 with g2 | ⟨g2, g3⟩
        · left; omega
        · right
          exact ⟨by omega, strLe_trans _ _ _ h3 g3⟩

end prepareZipcodeData

/-- C9.  The stacked Corpus Assembler: whenever every file of the corpus
loads successfully into a nonempty table with duplicate-free zipcodes (the
loader's deduplication guarantees the latter, see C8), the assembled
output is a permutation of the vertically concatenated per-year rows
restricted to the zipcodes present in *every* year's table (the running
inner intersection), sorted ascending by `(Date, ZIPCODE)`; in particular
an entity present in some but not all years is excluded, as on the
concrete three-year corpus where zipcode 10001 is missing from the last
year. -/
theorem C9_stacked_corpus_assembler :
    (∀ (files : List RawFile) (tables : List (List prepareZipcodeData.DRow)),
      files.map prepareZipcodeData.load_one_fmr_file = tables.map Except.ok →
      (∀ t ∈ tables, t ≠ []) →
      (∀ t ∈ tables, (prepareZipcodeData.dkeys t).Nodup) →
      ∃ out, prepareZipcodeData.assemble_stacked files = Except.ok out ∧
        List.Perm out (tables.flatten.filter
          (fun r => decide (∀ t ∈ tables, r.zipcode ∈ prepareZipcodeData.dkeys t))) ∧
        out.Pairwise (fun a b => prepareZipcodeData.drowLe a b = true)) ∧
    prepareZipcodeData.assemble_stacked [exFile2018, exFile2019, exFile2021C9] =
      Except.ok exC9out ∧
    exC9out.all (fun r => r.zipcode != "10001") = true := by
  refine ⟨?_, by decide, by decide⟩
  intro files tables hload hne hnd
  have hstate := prepareZipcodeData.assembleState_eq files tables hload
  refine ⟨sortLe prepareZipcodeData.drowLe
    (prepareZipcodeData.inner_merge_rows (prepareZipcodeData.stackStatePure tables).1
      (prepareZipcodeData.stackStatePure tables).2), ?_, ?_, ?_⟩
  · rw [prepareZipcodeData.assemble_stacked, hstate]
    rfl
  · cases tables with
    | nil =>
      refine (sortLe_perm _ _).trans ?_
      exact List.Perm.refl _
    | cons t ts =>
      have ht : t ≠ [] := hne t (List.mem_cons_self t ts)
      have hknd : (prepareZipcodeData.dkeys t).Nodup := hnd t (List.mem_cons_self t ts)
      have hchar : prepareZipcodeData.stackStatePure (t :: ts) =
          ts.foldl
            (fun st u =>
              if st.1.length = 0 then (u, prepareZipcodeData.dkeys u)
              else (st.1 ++ u,
                prepareZipcodeData.inner_zip st.2 (prepareZipcodeData.dkeys u)))
            (t, prepareZipcodeData.dkeys t) := by
        rw [prepareZipcodeData.stackStatePure, List.foldl_cons]
        rfl
      rcases prepareZipcodeData.stack_fold_from ts (t, prepareZipcodeData.dkeys t) ht
        hknd (fun u hu => hnd u (List.mem_cons_of_mem t hu)) with ⟨h1, h2, h3⟩
      refine (sortLe_perm _ _).trans ?_
      rw [hchar, prepareZipcodeData.inner_merge_rows_eq _ _ h2, h1]
      refine List.Perm.of_eq ?_
      rw [List.flatten_cons]
      refine List.filter_congr ?_
      intro r hr
      rw [show (decide (r.zipcode ∈ (ts.foldl
        (fun st u =>
          if st.1.length = 0 then (u, prepareZipcodeData.dkeys u)
          else (st.1 ++ u,
            prepareZipcodeData.inner_zip st.2 (prepareZipcodeData.dkeys u)))
        (t, prepareZipcodeData.dkeys t)).2) =
          decide (∀ u ∈ t :: ts, r.zipcode ∈ prepareZipcodeData.dkeys u)) from by
        rw [decide_eq_decide, h3 r.zipcode, List.forall_mem_cons]]
  · exact sortLe_pairwise _ prepareZipcodeData.drowLe_total
      prepareZipcodeData.drowLe_trans _

/-- Witness for C9: the general statement instantiated at a one-file
corpus with its loaded table. -/
theorem C9_stacked_corpus_assembler_witness :
    ∃ out, prepareZipcodeData.assemble_stacked [exFile2018] = Except.ok out ∧
      List.Perm out ([exC9table].flatten.filter
        (fun r => decide (∀ t ∈ [exC9table], r.zipcode ∈ prepareZipcodeData.dkeys t))) ∧
      out.Pairwise (fun a b => prepareZipcodeData.drowLe a b = true) :=
  C9_stacked_corpus_assembler.1 [exFile2018] [exC9table] (by decide) (by decide)
    (by decide)

namespace analyze

theorem sqGt_d_pos (s1 d1 s2 d2 : ℚ) (h : sqGt s1 d1 s2 d2 = true) : 0 < d1 := by
  rw [sqGt] at h
  by_cases hd : d1 ≤ 0
  · rw [if_pos hd] at h
    cases h
  · exact lt_of_not_ge hd

theorem sum_sq_eq_zero {c : ℚ} {xs : List ℚ}
    (h : (xs.map (fun x => (x - c) ^ 2)).sum = 0) : ∀ x ∈ xs, x = c := by
  induction xs with
  | nil => intro x hx; cases hx
  | cons a as ih =>
    rw [List.map_cons, List.sum_cons] at h
    have hrest : (0:ℚ) ≤ (as.map (fun x => (x - c) ^ 2)).sum := by
      refine List.sum_nonneg ?_
      intro x hx
      rcases List.mem_map.mp hx with ⟨y, _, rfl⟩
      positivity
    have hhead : (0:ℚ) ≤ (a - c) ^ 2 := sq_nonneg _
    have h0 : (a - c) ^ 2 = 0 := by linarith
    intro x hx
    rcases List.mem_cons.mp hx with rfl | hx
    · have := sq_eq_zero_iff.mp h0
      linarith [sub_eq_zero.mp this]
    · exact ih (by linarith) x hx

theorem corrRep_d_nonneg (ps : List (ℚ × ℚ)) : 0 ≤ (corrRep ps).2 := by
  rw [corrRep]
  refine mul_nonneg ?_ ?_ <;>
    refine List.sum_nonneg ?_ <;>
    intro x hx <;>
    rcases List.mem_map.mp hx with ⟨y, _, rfl⟩ <;>
    positivity

theorem corrRep_s_eq_zero (ps : List (ℚ × ℚ)) (h : (corrRep ps).2 = 0) :
    (corrRep ps).1 = 0 := by
  rw [corrRep] at h ⊢
  simp only at h ⊢
  rcases mul_eq_zero.mp h with hx | hy
  · refine List.sum_eq_zero ?_
    intro v hv
    rcases List.mem_map.mp hv with ⟨p, hp, rfl⟩
    have hxz := sum_sq_eq_zero hx p.1 (List.mem_map_of_mem Prod.fst hp)
    rw [sub_eq_zero.mpr hxz, zero_mul]
  · refine List.sum_eq_zero ?_
    intro v hv
    rcases List.mem_map.mp hv with ⟨p, hp, rfl⟩
    have hyz := sum_sq_eq_zero hy p.2 (List.mem_map_of_mem Prod.snd hp)
    rw [sub_eq_zero.mpr hyz, mul_zero]

theorem sq_lt_sq_iff_of_nonneg {a b : ℝ} (ha : 0 ≤ a) (hb : 0 < b) :
    a * a < b * b ↔ a < b := by
  constructor
  · intro h
    by_contra hba
    push_neg at hba
    nlinarith
  · intro h
    nlinarith

theorem sqGt_iff (s1 d1 s2 d2 : ℚ) (h1 : 0 < d1) (h2 : 0 < d2) :
    sqGt s1 d1 s2 d2 = true ↔
      (s2 : ℝ) / Real.sqrt (d2 : ℝ) < (s1 : ℝ) / Real.sqrt (d1 : ℝ) := by
  have hr1 : (0:ℝ) < (d1 : ℝ) := by exact_mod_cast h1
  have hr2 : (0:ℝ) < (d2 : ℝ) := by exact_mod_cast h2
  have hs1 : (0:ℝ) < Real.sqrt (d1:ℝ) := Real.sqrt_pos.mpr hr1
  have hs2 : (0:ℝ) < Real.sqrt (d2:ℝ) := Real.sqrt_pos.mpr hr2
  have hq1 : Real.sqrt (d1:ℝ) ^ 2 = (d1:ℝ) := Real.sq_sqrt (le_of_lt hr1)
  have hq2 : Real.sqrt (d2:ℝ) ^ 2 = (d2:ℝ) := Real.sq_sqrt (le_of_lt hr2)
  rw [sqGt, if_neg (not_le.mpr h1), div_lt_div_iff hs2 hs1]
  by_cases hp : 0 < s1
  · have hps1 : (0:ℝ) < (s1:ℝ) := by exact_mod_cast hp
    rw [if_pos hp, Bool.or_eq_true, decide_eq_true_eq, decide_eq_true_eq]
    constructor
    · rintro (hn | hlt)
      · have hns2 : (s2:ℝ) ≤ 0 := by exact_mod_cast hn
        have hleft : (s2:ℝ) * Real.sqrt (d1:ℝ) ≤ 0 :=
          mul_nonpos_of_nonpos_of_nonneg hns2 (le_of_lt hs1)
        have hright : (0:ℝ) < (s1:ℝ) * Real.sqrt (d2:ℝ) := mul_pos hps1 hs2
        linarith
      · by_cases hn : s2 ≤ 0
        · have hns2 : (s2:ℝ) ≤ 0 := by exact_mod_cast hn
          have hleft : (s2:ℝ) * Real.sqrt (d1:ℝ) ≤ 0 :=
            mul_nonpos_of_nonpos_of_nonneg hns2 (le_of_lt hs1)
          have hright : (0:ℝ) < (s1:ℝ) * Real.sqrt (d2:ℝ) := mul_pos hps1 hs2
          linarith
        · have hrs2 : (0:ℝ) ≤ (s2:ℝ) := by
            exact_mod_cast le_of_lt (lt_of_not_ge hn)
          have hc : (s2:ℝ)^2 * (d1:ℝ) < (s1:ℝ)^2 * (d2:ℝ) := by exact_mod_cast hlt
          refine (sq_lt_sq_iff_of_nonneg
            (mul_nonneg hrs2 (le_of_lt hs1)) (mul_pos hps1 hs2)).mp ?_
          calc (s2:ℝ) * Real.sqrt (d1:ℝ) * ((s2:ℝ) * Real.sqrt (d1:ℝ))
              = (s2:ℝ)^2 * ((Real.sqrt (d1:ℝ))^2) := by ring
            _ = (s2:ℝ)^2 * (d1:ℝ) := by rw [hq1]
            _ < (s1:ℝ)^2 * (d2:ℝ) := hc
            _ = (s1:ℝ)^2 * ((Real.sqrt (d2:ℝ))^2) := by rw [hq2]
            _ = (s1:ℝ) * Real.sqrt (d2:ℝ) * ((s1:ℝ) * Real.sqrt (d2:ℝ)) := by ring
    · intro h
      by_cases hn : s2 ≤ 0
      · exact Or.inl hn
      · refine Or.inr ?_
        have hrs2 : (0:ℝ) < (s2:ℝ) := by exact_mod_cast lt_of_not_ge hn
        have hsq := (sq_lt_sq_iff_of_nonneg
          (le_of_lt (mul_pos hrs2 hs1)) (mul_pos hps1 hs2)).mpr h
        have hc : (s2:ℝ)^2 * (d1:ℝ) < (s1:ℝ)^2 * (d2:ℝ) := by
          calc (s2:ℝ)^2 * (d1:ℝ) = (s2:ℝ)^2 * ((Real.sqrt (d1:ℝ))^2) := by rw [hq1]
            _ = (s2:ℝ) * Real.sqrt (d1:ℝ) * ((s2:ℝ) * Real.sqrt (d1:ℝ)) := by ring
            _ < (s1:ℝ) * Real.sqrt (d2:ℝ) * ((s1:ℝ) * Real.sqrt (d2:ℝ)) := hsq
            _ = (s1:ℝ)^2 * ((Real.sqrt (d2:ℝ))^2) := by ring
            _ = (s1:ℝ)^2 * (d2:ℝ) := by rw [hq2]
        exact_mod_cast hc
  · have hns1 : (s1:ℝ) ≤ 0 := by exact_mod_cast not_lt.mp hp
    rw [if_neg hp, Bool.and_eq_true, decide_eq_true_eq, decide_eq_true_eq]
    constructor
    · rintro ⟨hn, hlt⟩
      have hrs2 : (s2:ℝ) < 0 := by exact_mod_cast hn
      have hc : (s1:ℝ)^2 * (d2:ℝ) < (s2:ℝ)^2 * (d1:ℝ) := by exact_mod_cast hlt
      have hkey : -((s1:ℝ) * Real.sqrt (d2:ℝ)) < -((s2:ℝ) * Real.sqrt (d1:ℝ)) := by
        refine (sq_lt_sq_iff_of_nonneg
          (by nlinarith) (by nlinarith)).mp ?_
        calc -((s1:ℝ) * Real.sqrt (d2:ℝ)) * -((s1:ℝ) * Real.sqrt (d2:ℝ))
            = (s1:ℝ)^2 * ((Real.sqrt (d2:ℝ))^2) := by ring
          _ = (s1:ℝ)^2 * (d2:ℝ) := by rw [hq2]
          _ < (s2:ℝ)^2 * (d1:ℝ) := hc
          _ = (s2:ℝ)^2 * ((Real.sqrt (d1:ℝ))^2) := by rw [hq1]
          _ = -((s2:ℝ) * Real.sqrt (d1:ℝ)) * -((s2:ℝ) * Real.sqrt (d1:ℝ)) := by ring
      linarith
    · intro h
      have hn : s2 < 0 := by
        by_contra hge
        have hrs2 : (0:ℝ) ≤ (s2:ℝ) := by exact_mod_cast not_lt.mp hge
        have hleft : (s1:ℝ) * Real.sqrt (d2:ℝ) ≤ 0 :=
          mul_nonpos_of_nonpos_of_nonneg hns1 (le_of_lt hs2)
        have hright : (0:ℝ) ≤ (s2:ℝ) * Real.sqrt (d1:ℝ) :=
          mul_nonneg hrs2 (le_of_lt hs1)
        linarith
      refine ⟨hn, ?_⟩
      have hrs2 : (s2:ℝ) < 0 := by exact_mod_cast hn
      have hkey : -((s1:ℝ) * Real.sqrt (d2:ℝ)) < -((s2:ℝ) * Real.sqrt (d1:ℝ)) := by
        linarith
      have hsq := (sq_lt_sq_iff_of_nonneg
        (by nlinarith : (0:ℝ) ≤ -((s1:ℝ) * Real.sqrt (d2:ℝ)))
        (by nlinarith : (0:ℝ) < -((s2:ℝ) * Real.sqrt (d1:ℝ)))).mpr hkey
      have hc : (s1:ℝ)^2 * (d2:ℝ) < (s2:ℝ)^2 * (d1:ℝ) := by
        calc (s1:ℝ)^2 * (d2:ℝ) = (s1:ℝ)^2 * ((Real.sqrt (d2:ℝ))^2) := by rw [hq2]
          _ = -((s1:ℝ) * Real.sqrt (d2:ℝ)) * -((s1:ℝ) * Real.sqrt (d2:ℝ)) := by ring
          _ < -((s2:ℝ) * Real.sqrt (d1:ℝ)) * -((s2:ℝ) * Real.sqrt (d1:ℝ)) := hsq
          _ = (s2:ℝ)^2 * ((Real.sqrt (d1:ℝ))^2) := by ring
          _ = (s2:ℝ)^2 * (d1:ℝ) := by rw [hq1]
      exact_mod_cast hc

theorem sqLtC_iff (s d c : ℚ) (hd : 0 < d) (hc : 0 < c) :
    sqLtC s d c = true ↔ (s : ℝ) / Real.sqrt (d : ℝ) < (c : ℝ) := by
  have hrd : (0:ℝ) < (d : ℝ) := by exact_mod_cast hd
  have hsd : (0:ℝ) < Real.sqrt (d:ℝ) := Real.sqrt_pos.mpr hrd
  have hq : Real.sqrt (d:ℝ) ^ 2 = (d:ℝ) := Real.sq_sqrt (le_of_lt hrd)
  have hrc : (0:ℝ) < (c : ℝ) := by exact_mod_cast hc
  rw [sqLtC, div_lt_iff hsd, Bool.or_eq_true, decide_eq_true_eq, decide_eq_true_eq]
  constructor
  · rintro (hn | hlt)
    · have hns : (s:ℝ) ≤ 0 := by exact_mod_cast hn
      have : (0:ℝ) < (c:ℝ) * Real.sqrt (d:ℝ) := mul_pos hrc hsd
      linarith
    · by_cases hn : s ≤ 0
      · have hns : (s:ℝ) ≤ 0 := by exact_mod_cast hn
        have : (0:ℝ) < (c:ℝ) * Real.sqrt (d:ℝ) := mul_pos hrc hsd
        linarith
      · have hps : (0:ℝ) < (s:ℝ) := by exact_mod_cast lt_of_not_ge hn
        have hcast : (s:ℝ)^2 < (c:ℝ)^2 * (d:ℝ) := by exact_mod_cast hlt
        refine (sq_lt_sq_iff_of_nonneg (le_of_lt hps) (mul_pos hrc hsd)).mp ?_
        calc (s:ℝ) * (s:ℝ) = (s:ℝ)^2 := by ring
          _ < (c:ℝ)^2 * (d:ℝ) := hcast
          _ = (c:ℝ)^2 * ((Real.sqrt (d:ℝ))^2) := by rw [hq]
          _ = (c:ℝ) * Real.sqrt (d:ℝ) * ((c:ℝ) * Real.sqrt (d:ℝ)) := by ring
  · intro h
    by_cases hn : s ≤ 0
    · exact Or.inl hn
    · refine Or.inr ?_
      have hps : (0:ℝ) < (s:ℝ) := by exact_mod_cast lt_of_not_ge hn
      have hsq := (sq_lt_sq_iff_of_nonneg (le_of_lt hps) (mul_pos hrc hsd)).mpr h
      have hcast : (s:ℝ)^2 < (c:ℝ)^2 * (d:ℝ) := by
        calc (s:ℝ)^2 = (s:ℝ) * (s:ℝ) := by ring
          _ < (c:ℝ) * Real.sqrt (d:ℝ) * ((c:ℝ) * Real.sqrt (d:ℝ)) := hsq
          _ = (c:ℝ)^2 * ((Real.sqrt (d:ℝ))^2) := by ring
          _ = (c:ℝ)^2 * (d:ℝ) := by rw [hq]
      exact_mod_cast hcast

theorem sqGt_self_false (s d : ℚ) : sqGt s d s d = false := by
  rw [sqGt]
  by_cases hd : d ≤ 0
  · rw [if_pos hd]
  · rw [if_neg hd]
    by_cases hp : 0 < s
    · rw [if_pos hp]
      simp [not_le.mpr hp]
    · rw [if_neg hp]
      simp

theorem sqGt_pos_right (s d : ℚ) (hd : 0 < d) (hs : 0 < s) :
    sqGt s d 0 1 = true := by
  rw [sqGt, if_neg (not_le.mpr hd), if_pos hs]
  simp

theorem sqGt_cand_pos (cs cd bs bd : ℚ)
    (hb : bs = 0 ∨ 0 < bs) (h : sqGt cs cd bs bd = true) : 0 < cs := by
  rw [sqGt] at h
  by_cases hd : cd ≤ 0
  · rw [if_pos hd] at h
    cases h
  · rw [if_neg hd] at h
    by_cases hp : 0 < cs
    · exact hp
    · rw [if_neg hp, Bool.and_eq_true, decide_eq_true_eq] at h
      rcases hb with hb0 | hbp
      · rw [hb0] at h
        exact absurd h.1 (lt_irrefl 0)
      · exact absurd h.1 (not_lt.mpr (le_of_lt hbp))

theorem sqGt_trans_false (xs xd cs cd bs bd : ℚ) (hbd : 0 < bd)
    (hx : sqGt xs xd bs bd = false) (hc : sqGt cs cd bs bd = true) :
    sqGt xs xd cs cd = false := by
  by_cases hxd : xd ≤ 0
  · rw [sqGt, if_pos hxd]
  · have hxd2 : 0 < xd := lt_of_not_ge hxd
    have hcd : 0 < cd := sqGt_d_pos _ _ _ _ hc
    rw [Bool.eq_false_iff]
    intro htrue
    have hxc := (sqGt_iff xs xd cs cd hxd2 hcd).mp htrue
    have hcb := (sqGt_iff cs cd bs bd hcd hbd).mp hc
    have hnx : ¬ ((bs:ℝ) / Real.sqrt (bd:ℝ) < (xs:ℝ) / Real.sqrt (xd:ℝ)) := by
      intro hlt
      have := (sqGt_iff xs xd bs bd hxd2 hbd).mpr hlt
      rw [hx] at this
      cases this
    push_neg at hnx
    linarith

theorem sqGt_beats (xs xd cs cd bs bd : ℚ) (hbd : 0 < bd)
    (hxdnn : 0 ≤ xd) (hxz : xd = 0 → xs = 0)
    (hx : sqGt xs xd bs bd = false) (hc : sqGt cs cd bs bd = true) (hcs : 0 < cs) :
    sqGt cs cd xs xd = true := by
  have hcd : 0 < cd := sqGt_d_pos _ _ _ _ hc
  by_cases hxd : xd = 0
  · rw [sqGt, if_neg (not_le.mpr hcd), if_pos hcs, hxz hxd]
    simp
  · have hxd2 : 0 < xd := lt_of_le_of_ne hxdnn (Ne.symm hxd)
    rw [sqGt_iff cs cd xs xd hcd hxd2]
    have hcb := (sqGt_iff cs cd bs bd hcd hbd).mp hc
    have hnx : ¬ ((bs:ℝ) / Real.sqrt (bd:ℝ) < (xs:ℝ) / Real.sqrt (xd:ℝ)) := by
      intro hlt
      have := (sqGt_iff xs xd bs bd hxd2 hbd).mpr hlt
      rw [hx] at this
      cases this
    push_neg at hnx
    linarith

theorem searchInv_step (df : List (ℚ × ℚ)) (processed : List ℕ) (b : BestState)
    (l : ℕ) (hInv : SearchInv df processed b) (hl : ∀ p ∈ processed, p < l)
    (hbl : b.lag ≤ l) :
    SearchInv df (processed ++ [l]) (lagStep df b l) ∧ (lagStep df b l).lag ≤ l := by
  rcases hInv with ⟨hd, hbase, hnb, hbe⟩
  rw [lagStep]
  by_cases hupd : sqGt (corrRep (overlap l df)).1 (corrRep (overlap l df)).2 b.s b.d = true
  · rw [if_pos hupd]
    have hcd : 0 < (corrRep (overlap l df)).2 := sqGt_d_pos _ _ _ _ hupd
    have hcs : 0 < (corrRep (overlap l df)).1 := by
      refine sqGt_cand_pos _ _ b.s b.d ?_ hupd
      rcases hbase with ⟨h0, _, _⟩ | ⟨hsp, _⟩
      · exact Or.inl h0
      · exact Or.inr hsp
    refine ⟨⟨hcd, Or.inr ⟨hcs, by simp⟩, ?_, ?_⟩, le_refl l⟩
    · intro p hp
      rcases List.mem_append.mp hp with hp | hp
      · exact sqGt_trans_false _ _ _ _ b.s b.d hd (hnb p hp) hupd
      · rw [List.mem_singleton.mp hp]
        exact sqGt_self_false _ _
    · intro p hp hpl
      have hp2 : p ∈ processed := by
        rcases List.mem_append.mp hp with hp | hp
        · exact hp
        · rw [List.mem_singleton.mp hp] at hpl
          exact absurd hpl (lt_irrefl l)
      exact sqGt_beats _ _ _ _ b.s b.d hd (corrRep_d_nonneg _)
        (corrRep_s_eq_zero _) (hnb p hp2) hupd hcs
  · rw [if_neg hupd]
    refine ⟨⟨hd, ?_, ?_, ?_⟩, hbl⟩
    · rcases hbase with h0 | ⟨hsp, hmem⟩
      · exact Or.inl h0
      · exact Or.inr ⟨hsp, List.mem_append_left _ hmem⟩
    · intro p hp
      rcases List.mem_append.mp hp with hp | hp
      · exact hnb p hp
      · rw [List.mem_singleton.mp hp]
        exact Bool.eq_false_iff.mpr hupd
    · intro p hp hpl
      have hp2 : p ∈ processed := by
        rcases List.mem_append.mp hp with hp | hp
        · exact hp
        · rw [List.mem_singleton.mp hp] at hpl
          exact absurd (lt_of_lt_of_le hpl hbl) (lt_irrefl l)
      exact hbe p hp2 hpl

theorem lagFold_inv (df : List (ℚ × ℚ)) :
    SearchInv df [0, 1, 2, 3] (lagFold df) ∧ (lagFold df).lag ≤ 3 := by
  have h0 : SearchInv df [] ⟨0, 1, 0⟩ := by
    refine ⟨by norm_num, Or.inl ⟨rfl, rfl, rfl⟩, ?_, ?_⟩
    · intro p hp
      cases hp
    · intro p hp
      cases hp
  have h1 := searchInv_step df [] ⟨0, 1, 0⟩ 0 h0 (by intro p hp; cases hp) (le_refl 0)
  have h2 := searchInv_step df [0] _ 1 h1.1 (by decide) (le_trans h1.2 (by norm_num))
  have h3 := searchInv_step df [0, 1] _ 2 h2.1 (by decide)
    (le_trans h2.2 (by norm_num))
  have h4 := searchInv_step df [0, 1, 2] _ 3 h3.1 (by decide)
    (le_trans h3.2 (by norm_num))
  exact ⟨h4.1, h4.2⟩

end analyze

/-- C7.  Search mode of the Lag Correlator: whenever a lag and correlation
are reported, the lag is one of {0,1,2,3}, its correlation strictly
exceeds the 0 baseline (`sqGt s d 0 1`, i.e. `s/√d > 0`), it is not below
the 0.80 significance threshold (`sqLtC s d (4/5) = false`), and no tested
lag in {0,1,2,3} strictly beats it; when the best correlation is below
0.80 nothing is reported (`none`).  On the concrete input whose field
equals CPI shifted by exactly 2, the search reports lag 2 with
representation `(30, 900)`: since `30² = 900`, the correlation is exactly
`30/√900 = 1`, which rounds to 1.0 at two decimals. -/
theorem C7_lag_correlator_search :
    (∀ (df : List (ℚ × ℚ)) (l : ℕ) (s d : ℚ),
      analyze.lag_calculator_search df = some (l, s, d) →
      l ≤ 3 ∧ analyze.sqGt s d 0 1 = true ∧ analyze.sqLtC s d (4 / 5) = false ∧
      ∀ lag : ℕ, lag ≤ 3 →
        analyze.sqGt (analyze.corrRep (analyze.overlap lag df)).1
          (analyze.corrRep (analyze.overlap lag df)).2 s d = false) ∧
    analyze.lag_calculator_search analyze.exC7 = some (2, 30, 900) ∧
    (30 : ℚ) ^ 2 = 1 ^ 2 * 900 ∧
    analyze.lag_calculator "Efficiency" analyze.exC7 = Except.ok (some (2, 30, 900)) := by
  refine ⟨?_, by decide, by norm_num, by decide⟩
  intro df l s d h
  rcases analyze.lagFold_inv df with ⟨hInv, hle⟩
  rw [analyze.lag_calculator_search] at h
  by_cases ht : analyze.sqLtC (analyze.lagFold df).s (analyze.lagFold df).d (4 / 5) = true
  · rw [if_pos ht] at h
    cases h
  · rw [if_neg ht] at h
    have h2 := Option.some.inj h
    have hlag : (analyze.lagFold df).lag = l := congrArg Prod.fst h2
    have hs : (analyze.lagFold df).s = s := congrArg (fun p => p.2.1) h2
    have hd : (analyze.lagFold df).d = d := congrArg (fun p => p.2.2) h2
    refine ⟨hlag ▸ hle, ?_, ?_, ?_⟩
    · rcases hInv.base with ⟨hs0, hd1, _⟩ | ⟨hsp, _⟩
      · exfalso
        apply ht
        rw [hs0, hd1]
        decide
      · rw [← hs, ← hd]
        exact analyze.sqGt_pos_right _ _ hInv.dpos hsp
    · rw [← hs, ← hd]
      exact Bool.eq_false_iff.mpr ht
    · intro lag hl3
      have hmem : lag ∈ [0, 1, 2, 3] := by
        interval_cases lag <;> decide
      rw [← hs, ← hd]
      exact hInv.not_beaten lag hmem

/-- Witness for C7: the general statement instantiated at the
shifted-by-two input, with the untested-lag conjunct applied at lag 0. -/
theorem C7_lag_correlator_search_witness :
    2 ≤ 3 ∧ analyze.sqGt 30 900 0 1 = true ∧
    analyze.sqLtC 30 900 (4 / 5) = false ∧
    analyze.sqGt (analyze.corrRep (analyze.overlap 0 analyze.exC7)).1
      (analyze.corrRep (analyze.overlap 0 analyze.exC7)).2 30 900 = false := by
  have h := C7_lag_correlator_search.1 analyze.exC7 2 30 900 (by decide)
  exact ⟨h.1, h.2.1, h.2.2.1, h.2.2.2 0 (by norm_num)⟩

/-- C10.  Tie-breaking of the lag search: a later lag replaces the running
best only on a *strictly* greater correlation, so the reported lag
strictly beats every smaller lag — it is the smallest lag achieving the
maximal correlation.  On the concrete geometric input, every lag in
{0,1,2,3} has correlation exactly 1 (`s² = d`, shown for lag 1), and the
search reports the smallest, lag 0. -/
theorem C10_lag_tie_breaking :
    (∀ (df : List (ℚ × ℚ)) (l : ℕ) (s d : ℚ),
      analyze.lag_calculator_search df = some (l, s, d) →
      ∀ lag : ℕ, lag < l →
        analyze.sqGt s d (analyze.corrRep (analyze.overlap lag df)).1
          (analyze.corrRep (analyze.overlap lag df)).2 = true) ∧
    analyze.lag_calculator_search analyze.exC10 = some (0, 1407 / 2, 1979649 / 4) ∧
    (1407 / 2 : ℚ) ^ 2 = 1979649 / 4 ∧
    ((analyze.corrRep (analyze.overlap 1 analyze.exC10)).1) ^ 2 =
      (analyze.corrRep (analyze.overlap 1 analyze.exC10)).2 := by
  refine ⟨?_, by decide, by norm_num, by decide⟩
  intro df l s d h
  rcases analyze.lagFold_inv df with ⟨hInv, hle⟩
  rw [analyze.lag_calculator_search] at h
  by_cases ht : analyze.sqLtC (analyze.lagFold df).s (analyze.lagFold df).d (4 / 5) = true
  · rw [if_pos ht] at h
    cases h
  · rw [if_neg ht] at h
    have h2 := Option.some.inj h
    have hlag : (analyze.lagFold df).lag = l := congrArg Prod.fst h2
    have hs : (analyze.lagFold df).s = s := congrArg (fun p => p.2.1) h2
    have hd : (analyze.lagFold df).d = d := congrArg (fun p => p.2.2) h2
    intro lag hlt
    have hmem : lag ∈ [0, 1, 2, 3] := by
      have hl3 : l ≤ 3 := hlag ▸ hle
      have : lag ≤ 3 := by omega
      interval_cases lag <;> decide
    rw [← hs, ← hd]
    exact hInv.beats_earlier lag hmem (hlag ▸ hlt)

/-- Witness for C10: the general tie-breaking statement instantiated at
the shifted-by-two input, whose reported lag 2 strictly beats lag 0. -/
theorem C10_lag_tie_breaking_witness :
    analyze.sqGt 30 900 (analyze.corrRep (analyze.overlap 0 analyze.exC7)).1
      (analyze.corrRep (analyze.overlap 0 analyze.exC7)).2 = true :=
  C10_lag_tie_breaking.1 analyze.exC7 2 30 900 (by decide) 0 (by norm_num)

end S2P
